import Mathlib

/-!
A shallow embedding of go-jsonrpc2: the envelope model, the error taxonomy,
the server dispatcher and the client engine.

The definitions follow `type.go`, `error.go`, `server.go` and `client.go`.

Modelling conventions.

* A Go slice is a `List`; a nil slice and an empty slice are identified (the
  code only takes `len` of them and ranges over them).  The batches are slices
  of pointers to units; the pointers are taken to be non-nil (the loops of
  `Server.Execute` and `Client.execute` dereference them at once).
* `json.RawMessage` values are byte strings; `Option RawMessage` separates the
  nil message (`none`) from a non-nil one.
* An `interface{}` holding an id is an `ID`; `ID.null` is the nil interface.
* `encoding/json` is not part of the repository.  What the handlers, the
  errors and the client need from it is taken as a parameter (`JsonLib`,
  `ReflectType.decode`).  For the batches on the wire the library is modelled
  as it is documented, on the two unit types and their struct tags: a JSON
  text is an object or an array of objects, an object is given by the members
  that the decoder matches to the fields of the struct, a number literal by
  its value, a Go string by its characters (valid UTF-8); the texts of the
  decoder's errors are abbreviated.  What `json.Marshal` makes of a
  `json.RawMessage` and of an id of another dynamic type stays a parameter
  (`JsonWire`).
* Functions that Go runs for their effects return the effects explicitly:
  the list of handler invocations, the list of batches handed to the
  transport, the execution units after a dispatch cycle.  A handler function
  and a transport are functions of their argument.
* `Client.mutex` serialises `Client.Execute` and `Client.execute`; each of the
  two is therefore one atomic step on the `Client` state.
* A Go map keyed by ids is the list of its entries, key and unit, in the order
  in which `range` visits them; the entries hold non-nil pointers.  A run-time
  panic of `GetSlice` is the result `none`.
* `int64` arithmetic wraps (`wrapInt64`).  The states of a client that has been
  given fewer than `2^63` calls satisfy the invariant `Client.WF`
  (`Client.Reachable_WF`).
-/

namespace jsonrpc2

deriving instance DecidableEq for Except

/-! ## Envelope model (`type.go`) -/

/-- Bytes of a `json.RawMessage`. -/
abbrev RawMessage := String

/-- Values of Go's `float64`: the finite ones by their exact value. -/
inductive Float64 where
  | finite (q : Rat)
  | nan
  | posInf
  | negInf
deriving DecidableEq

/-- Dynamic value of the `ID interface{}` field of a unit.  `int64` is what the
client stores (`requestUnit.ID = executeUnit.index`), `float64` is what
`encoding/json` stores for a JSON number, `other` stands for every remaining
dynamic type (arrays, objects, other Go types). -/
inductive ID where
  | null
  | bool (b : Bool)
  | int64 (n : Int)
  | float64 (x : Float64)
  | string (s : String)
  | other (tag : Nat)
deriving DecidableEq

/-- The struct `Error` of `type.go`; `Code` is an `int32`. -/
structure Error where
  Code : Int
  Message : String
  Data : Option RawMessage
deriving DecidableEq

/-- The struct `RequestUnit` of `type.go`. -/
structure RequestUnit where
  JsonRPC : String
  ID : ID
  Method : String
  Params : Option RawMessage
deriving DecidableEq

/-- The struct `ResponseUnit` of `type.go`; `Error` is a pointer, `none` is nil. -/
structure ResponseUnit where
  JsonRPC : String
  ID : ID
  Result : Option RawMessage
  Error : Option Error
deriving DecidableEq

abbrev RequestSlice := List RequestUnit

abbrev ResponseSlice := List ResponseUnit

/-! ## Go values and the JSON library -/

/-- Non-nil dynamic value of an `interface{}` that is handed to `json.Marshal`
or produced by `json.Unmarshal`: a Go string, or any other value, named by a
tag. -/
inductive GoValue where
  | string (s : String)
  | other (tag : Nat)
deriving DecidableEq

/-- What the code uses of `json.Marshal`: `quote s` is the encoding of the Go
string `s` (this never fails), `marshalOther` the outcome for any other
value, with the text of the failure when it fails. -/
structure JsonLib where
  quote : String → RawMessage
  marshalOther : Nat → Except String RawMessage

/-- The call `json.Marshal(v)` for a non-nil `v`. -/
def jsonMarshal (J : JsonLib) : GoValue → Except String RawMessage
  | .string s => .ok (J.quote s)
  | .other t => J.marshalOther t

/-- A Go `error` value that is not the nil interface: a `*Error` (possibly a nil
pointer of that type), or any other error, by the text of its `Error()`. -/
inductive GoError where
  | protocol (e : Option Error)
  | other (text : String)
deriving DecidableEq

/-! ## Error taxonomy (`error.go`) -/

/-- The function `NewError`: on an encoding failure of the data it returns
`NewErrorInternalError(nil)`, written out here. -/
def NewError (J : JsonLib) (errorCode : Int) (errorMessage : String)
    (errorData : Option GoValue) : Error :=
  match errorData with
  | none => { Code := errorCode, Message := errorMessage, Data := none }
  | some d =>
    match jsonMarshal J d with
    | .error _ => { Code := -32603, Message := "Internal error", Data := none }
    | .ok errorDataJson =>
      { Code := errorCode, Message := errorMessage, Data := some errorDataJson }

def NewErrorParseError (J : JsonLib) (errorData : Option GoValue) : Error :=
  NewError J (-32700) "Parse error" errorData

def NewErrorInvalidRequest (J : JsonLib) (errorData : Option GoValue) : Error :=
  NewError J (-32600) "Invalid Request" errorData

def NewErrorMethodNotFound (J : JsonLib) (errorData : Option GoValue) : Error :=
  NewError J (-32601) "Method not found" errorData

def NewErrorInvalidParams (J : JsonLib) (errorData : Option GoValue) : Error :=
  NewError J (-32602) "Invalid params" errorData

def NewErrorInternalError (J : JsonLib) (errorData : Option GoValue) : Error :=
  NewError J (-32603) "Internal error" errorData

/-- The function `NewErrorServerError`; `errorCodePart` is an `int32`, and after the two
clamps `-32000 - errorCodePart` cannot overflow. -/
def NewErrorServerError (J : JsonLib) (errorCodePart : Int)
    (errorData : Option GoValue) : Error :=
  let errorCodePart := if errorCodePart < 0 then 0 else errorCodePart
  let errorCodePart := if 99 < errorCodePart then 99 else errorCodePart
  NewError J (-32000 - errorCodePart) "Server error" errorData

/-! ## Server handler (`server.go`) -/

/-- A `reflect.Type` as the handler uses it: `decode` is `json.Unmarshal` of a
payload into a fresh value of the type, with the text of the failure. -/
structure ReflectType where
  decode : RawMessage → Except String GoValue

/-- The type `ServerHandlerFunc`: from the (possibly nil) decoded parameter to a
(possibly nil) result and a (possibly nil) error. -/
abbrev ServerHandlerFunc := Option GoValue → Option GoValue × Option GoError

structure ServerHandlerUnit where
  Request : Option ReflectType
  Response : Option ReflectType
  Function : Option ServerHandlerFunc

/-- The condition `ID != nil && ID != false && ID != true` of `server.go`. -/
def hasID (id : ID) : Bool :=
  id != ID.null && id != ID.bool false && id != ID.bool true

/-- Result of `ServerHandlerUnit.Execute`: the returned pointer and the
arguments of the calls of `handler.Function` it made. -/
structure HandlerOutcome where
  responseUnit : Option ResponseUnit
  calls : List (Option GoValue)

/-- The first half of `ServerHandlerUnit.Execute` (lines 37-69): the result,
the error and the invocations. -/
def ServerHandlerUnit.invoke (J : JsonLib) (handler : ServerHandlerUnit)
    (requestUnit : RequestUnit) :
    Option GoValue × Option Error × List (Option GoValue) :=
  match handler.Function with
  | some function =>
    let decoded : Option GoValue × Option Error :=
      match requestUnit.Params, handler.Request with
      | some params, some requestType =>
        match requestType.decode params with
        | .ok v => (some v, none)
        | .error e => (none, some (NewErrorInvalidParams J (some (.string e))))
      | _, _ => (none, none)
    match decoded.2 with
    | none =>
      let returned := function decoded.1
      let err : Option GoError :=
        if returned.1 = none ∧ returned.2 = none then
          some (.other "handler function return nothing")
        else returned.2
      let responseResult : Option GoValue :=
        if returned.1 ≠ none ∧ err ≠ none then none else returned.1
      let responseError : Option Error :=
        match err with
        | none => none
        | some (.protocol e) => e
        | some (.other text) => some (NewErrorInternalError J (some (.string text)))
      (responseResult, responseError, [decoded.1])
    | some responseError => (none, some responseError, [])
  | none =>
    (none, some (NewErrorMethodNotFound J (some (.string "handler function is nil"))), [])

/-- The method `ServerHandlerUnit.Execute`; a nil `requestUnit` is `none`. -/
def ServerHandlerUnit.Execute (J : JsonLib) (handler : ServerHandlerUnit)
    (requestUnit : Option RequestUnit) : HandlerOutcome :=
  match requestUnit with
  | none => { responseUnit := none, calls := [] }
  | some requestUnit =>
    let r := handler.invoke J requestUnit
    if hasID requestUnit.ID then
      let encoded : Option RawMessage × Option Error :=
        match r.1 with
        | some responseResult =>
          match jsonMarshal J responseResult with
          | .ok responseResultJson => (some responseResultJson, r.2.1)
          | .error e => (none, some (NewErrorInternalError J (some (.string e))))
        | none => (none, r.2.1)
      { responseUnit := some
          { JsonRPC := requestUnit.JsonRPC, ID := requestUnit.ID,
            Result := encoded.1, Error := encoded.2 },
        calls := r.2.2 }
    else
      { responseUnit := none, calls := r.2.2 }

/-! ## Server (`server.go`) -/

structure Server where
  handlerMap : String → Option ServerHandlerUnit

def NewServer : Server := { handlerMap := fun _ => none }

/-- The method `Server.HandleFunc`; the two shapes are what `reflect.TypeOf` gives. -/
def Server.HandleFunc (server : Server) (method : String)
    (handleFunc : Option ServerHandlerFunc) (request response : Option ReflectType) :
    Server :=
  { handlerMap := fun m =>
      if m = method then
        some { Request := request, Response := response, Function := handleFunc }
      else server.handlerMap m }

/-- The variables of `Server.Execute` that live across the iterations of its
loop, and the handler invocations made so far (method and argument). -/
structure ServerLoop where
  responseUnit : Option ResponseUnit
  ok : Bool
  responseSlice : ResponseSlice
  calls : List (String × Option GoValue)

def ServerLoop.init : ServerLoop :=
  { responseUnit := none, ok := false, responseSlice := [], calls := [] }

/-- One iteration of the loop of `Server.Execute` (lines 133-154). -/
def Server.step (J : JsonLib) (server : Server) (st : ServerLoop)
    (requestUnit : RequestUnit) : ServerLoop :=
  let st1 : ServerLoop :=
    if requestUnit.JsonRPC = "2.0" then
      match server.handlerMap requestUnit.Method with
      | some handlerUnit =>
        let out := handlerUnit.Execute J (some requestUnit)
        { st with
          ok := true
          responseUnit := out.responseUnit
          calls := st.calls ++ out.calls.map (fun a => (requestUnit.Method, a)) }
      | none => { st with ok := false }
    else
      { st with
        responseSlice := st.responseSlice ++
          [{ JsonRPC := "2.0", ID := ID.null, Result := none,
             Error := some (NewErrorInvalidRequest J none) }] }
  if hasID requestUnit.ID then
    if st1.ok then
      match st1.responseUnit with
      | some responseUnit =>
        { st1 with responseSlice := st1.responseSlice ++ [responseUnit] }
      | none =>
        { st1 with
          responseSlice := st1.responseSlice ++
            [{ JsonRPC := "2.0", ID := requestUnit.ID, Result := none,
               Error := some (NewErrorInternalError J (some (.string "response is nil"))) }] }
    else
      { st1 with
        responseSlice := st1.responseSlice ++
          [{ JsonRPC := "2.0", ID := requestUnit.ID, Result := none,
             Error := some (NewErrorMethodNotFound J
               (some (.string ("handler \"" ++ requestUnit.Method ++ "\" not founded")))) }] }
  else st1

/-- The loop of `Server.Execute` from a given state. -/
def Server.loop (J : JsonLib) (server : Server) (st : ServerLoop)
    (requestSlice : RequestSlice) : ServerLoop :=
  requestSlice.foldl (server.step J) st

/-- The method `Server.Execute`: the returned response batch. -/
def Server.Execute (J : JsonLib) (server : Server) (requestSlice : RequestSlice) :
    ResponseSlice :=
  (server.loop J ServerLoop.init requestSlice).responseSlice

/-- The handler invocations made by `Server.Execute`, in order. -/
def Server.invocations (J : JsonLib) (server : Server) (requestSlice : RequestSlice) :
    List (String × Option GoValue) :=
  (server.loop J ServerLoop.init requestSlice).calls

/-! ## Batches on the wire (`type.go`) and `encoding/json` -/

/-- The value of a member of a JSON object that the decoder stores in a string,
an `int32` or an `interface{}`.  A number literal made of decimal digits (with
an optional minus sign) is `integer`, by its value; any other number literal
(with a fraction or an exponent) is `decimal`, by the `float64` that
`strconv.ParseFloat` reads from it (not a finite one when the literal is out
of range); an array or an object is `other`, by the tag of the Go value that
the decoder builds from it. -/
inductive JsonValue where
  | null
  | bool (b : Bool)
  | integer (n : Int)
  | decimal (x : Float64)
  | string (s : String)
  | other (tag : Nat)
deriving DecidableEq

/-- A JSON object, by the members that the decoder of a `RequestUnit` matches
to the fields of the struct: `none` when the object has no such member; for
`params` the text of the member's value, which a `json.RawMessage` takes as it
is.  The names and the order of the members, members that match no field and
the spelling of the values are not part of the model. -/
structure RequestObject where
  jsonrpc : Option JsonValue
  id : Option JsonValue
  method : Option JsonValue
  params : Option RawMessage
deriving DecidableEq

/-- A JSON object, by the members that the decoder of an `Error` matches. -/
structure ErrorObject where
  code : Option JsonValue
  message : Option JsonValue
  data : Option RawMessage
deriving DecidableEq

/-- The value of the member `error` of a response object: `null`, an object,
or any other value. -/
inductive ErrorMember where
  | null
  | object (o : ErrorObject)
  | other
deriving DecidableEq

/-- A JSON object, by the members that the decoder of a `ResponseUnit` matches. -/
structure ResponseObject where
  jsonrpc : Option JsonValue
  id : Option JsonValue
  result : Option RawMessage
  error : Option ErrorMember
deriving DecidableEq

/-- A JSON text that is an object or an array of objects. -/
inductive JsonText (α : Type) where
  | object (o : α)
  | array (elements : List α)
deriving DecidableEq

/-- What the encoders of the units use of `encoding/json` beyond the shape of
the structs: `compact text` is what `json.Marshal` writes for a non-empty
`json.RawMessage` (the text without insignificant white space and with the
escapes of the encoder, or the failure when the text is not JSON), and
`marshalOther` is what it writes for an id of any other dynamic type. -/
structure JsonWire where
  compact : RawMessage → Except String RawMessage
  marshalOther : Nat → Except String JsonValue

/-- The exponent of the highest power of two that is at most `n`, by at most
`fuel` halvings. -/
def floorLog2Loop : Nat → Nat → Nat
  | 0, _ => 0
  | fuel + 1, n => if 2 ≤ n then floorLog2Loop fuel (n / 2) + 1 else 0

/-- The exponent of the highest power of two that is at most `n` (0 for 0). -/
def floorLog2 (n : Nat) : Nat := floorLog2Loop n n

/-- The reading `strconv.ParseFloat` of the decimal digits of the integer `n`:
the integer value of the `float64` nearest to `n`, a tie going to the even
significand of 53 bits, or the range error when the nearest is not finite
(`2 ^ 1024` or more in magnitude). -/
def float64OfInteger (n : Int) : Except String Int :=
  let a := n.natAbs
  let e := floorLog2 a - 52
  let m := a / 2 ^ e
  let r := a % 2 ^ e
  let m := if 2 ^ e < 2 * r ∨ (2 * r = 2 ^ e ∧ m % 2 = 1) then m + 1 else m
  if 1024 ≤ floorLog2 (m * 2 ^ e) then .error "strconv.ParseFloat: value out of range"
  else .ok (if n < 0 then -((m * 2 ^ e : Nat) : Int) else ((m * 2 ^ e : Nat) : Int))

/-- Whether `x` is a value of `float64`: a finite one is `m * 2 ^ e` with
`|m| < 2 ^ 53` and `-1074 ≤ e`, below `2 ^ 1024` in magnitude. -/
def Float64.isValue : Float64 → Bool
  | .finite q =>
    if q.den = 1 then
      decide (q.num.natAbs % 2 ^ (floorLog2 q.num.natAbs - 52) = 0 ∧
        floorLog2 q.num.natAbs < 1024)
    else
      decide (q.den = 2 ^ floorLog2 q.den ∧ floorLog2 q.den ≤ 1074 ∧ q.num.natAbs < 2 ^ 53)
  | _ => true

/-- The encoding of the dynamic value of an id by `json.Marshal`.  A `float64`
is written with the fewest digits that read back as the same `float64`: as
decimal digits when it is an integer below `1e21` in magnitude. -/
def marshalID (L : JsonWire) : ID → Except String JsonValue
  | .null => .ok .null
  | .bool b => .ok (.bool b)
  | .int64 n => .ok (.integer n)
  | .float64 (.finite q) =>
    if q.den = 1 ∧ q.num.natAbs < 10 ^ 21 then .ok (.integer q.num)
    else .ok (.decimal (.finite q))
  | .float64 _ => .error "json: unsupported value"
  | .string s => .ok (.string s)
  | .other tag => L.marshalOther tag

/-- The decoding of a value into an `interface{}` by `json.Unmarshal`: a number
becomes a `float64`. -/
def unmarshalID : JsonValue → Except String ID
  | .null => .ok .null
  | .bool b => .ok (.bool b)
  | .integer n =>
    match float64OfInteger n with
    | .ok k => .ok (.float64 (.finite k))
    | .error e => .error e
  | .decimal (.finite q) => .ok (.float64 (.finite q))
  | .decimal _ => .error "strconv.ParseFloat: value out of range"
  | .string s => .ok (.string s)
  | .other tag => .ok (.other tag)

/-- The encoding of a `json.RawMessage` field tagged `omitempty`: no member for
a nil or empty message. -/
def marshalRawMessage (L : JsonWire) : Option RawMessage → Except String (Option RawMessage)
  | none => .ok none
  | some text =>
    if text = "" then .ok none
    else
      match L.compact text with
      | .ok compacted => .ok (some compacted)
      | .error e => .error e

/-- The decoding of a member into a string field of a fresh struct: `null`
leaves the field as it is. -/
def unmarshalString : Option JsonValue → Except String String
  | none => .ok ""
  | some .null => .ok ""
  | some (.string s) => .ok s
  | some _ => .error "json: cannot unmarshal value into Go value of type string"

/-- The decoding of a member into the `int32` field `Code` of a fresh struct. -/
def unmarshalInt32 : Option JsonValue → Except String Int
  | none => .ok 0
  | some .null => .ok 0
  | some (.integer n) =>
    if -(2 ^ 31) ≤ n ∧ n < 2 ^ 31 then .ok n
    else .error "json: cannot unmarshal number into Go value of type int32"
  | some _ => .error "json: cannot unmarshal value into Go value of type int32"

/-- The call `json.Marshal(requestUnit)`: the struct tags of `RequestUnit` omit
a nil id and an empty `Params`. -/
def marshalRequestUnit (L : JsonWire) (requestUnit : RequestUnit) :
    Except String RequestObject :=
  let id : Except String (Option JsonValue) :=
    if requestUnit.ID = ID.null then .ok none
    else
      match marshalID L requestUnit.ID with
      | .ok v => .ok (some v)
      | .error e => .error e
  match id with
  | .error e => .error e
  | .ok id =>
    match marshalRawMessage L requestUnit.Params with
    | .error e => .error e
    | .ok params =>
      .ok { jsonrpc := some (.string requestUnit.JsonRPC), id := id,
            method := some (.string requestUnit.Method), params := params }

/-- The call `json.Unmarshal(input, &requestUnit)` on an object, into a fresh
`RequestUnit`. -/
def unmarshalRequestObject (o : RequestObject) : Except String RequestUnit :=
  match unmarshalString o.jsonrpc with
  | .error e => .error e
  | .ok version =>
    let id : Except String ID :=
      match o.id with
      | none => .ok .null
      | some v => unmarshalID v
    match id with
    | .error e => .error e
    | .ok id =>
      match unmarshalString o.method with
      | .error e => .error e
      | .ok method =>
        .ok { JsonRPC := version, ID := id, Method := method, Params := o.params }

/-- The call `json.Marshal` on a non-nil `*Error`: the struct tag of `Data`
omits an empty message. -/
def marshalError (L : JsonWire) (err : Error) : Except String ErrorObject :=
  match marshalRawMessage L err.Data with
  | .error e => .error e
  | .ok data =>
    .ok { code := some (.integer err.Code), message := some (.string err.Message),
          data := data }

/-- The decoding of an object into a fresh `Error`. -/
def unmarshalErrorObject (o : ErrorObject) : Except String Error :=
  match unmarshalInt32 o.code with
  | .error e => .error e
  | .ok code =>
    match unmarshalString o.message with
    | .error e => .error e
    | .ok message => .ok { Code := code, Message := message, Data := o.data }

/-- The call `json.Marshal(responseUnit)`: the id is always written, `null`
for a nil id; the struct tags omit an empty `Result` and a nil `Error`. -/
def marshalResponseUnit (L : JsonWire) (responseUnit : ResponseUnit) :
    Except String ResponseObject :=
  match marshalID L responseUnit.ID with
  | .error e => .error e
  | .ok id =>
    match marshalRawMessage L responseUnit.Result with
    | .error e => .error e
    | .ok result =>
      match responseUnit.Error with
      | none =>
        .ok { jsonrpc := some (.string responseUnit.JsonRPC), id := some id,
              result := result, error := none }
      | some err =>
        match marshalError L err with
        | .error e => .error e
        | .ok o =>
          .ok { jsonrpc := some (.string responseUnit.JsonRPC), id := some id,
                result := result, error := some (.object o) }

/-- The call `json.Unmarshal(input, &responseUnit)` on an object, into a fresh
`ResponseUnit`. -/
def unmarshalResponseObject (o : ResponseObject) : Except String ResponseUnit :=
  match unmarshalString o.jsonrpc with
  | .error e => .error e
  | .ok version =>
    let id : Except String ID :=
      match o.id with
      | none => .ok .null
      | some v => unmarshalID v
    match id with
    | .error e => .error e
    | .ok id =>
      let err : Except String (Option Error) :=
        match o.error with
        | none => .ok none
        | some .null => .ok none
        | some (.object eo) =>
          match unmarshalErrorObject eo with
          | .ok err => .ok (some err)
          | .error e => .error e
        | some .other =>
          .error "json: cannot unmarshal value into Go value of type jsonrpc2.Error"
      match err with
      | .error e => .error e
      | .ok err => .ok { JsonRPC := version, ID := id, Result := o.result, Error := err }

/-- The elements of a slice, each encoded or decoded by `f`, up to the first
failure. -/
def eachOrError {α β : Type} (f : α → Except String β) : List α → Except String (List β)
  | [] => .ok []
  | a :: l =>
    match f a with
    | .error e => .error e
    | .ok b =>
      match eachOrError f l with
      | .error e => .error e
      | .ok bs => .ok (b :: bs)

/-- The call `json.Marshal` on one unit, with the encoder `f` of the unit. -/
def jsonMarshalUnit {α β : Type} (f : α → Except String β) (unit : α) :
    Except String (JsonText β) :=
  match f unit with
  | .ok o => .ok (.object o)
  | .error e => .error e

/-- The call `json.Marshal` on a slice of units: an array. -/
def jsonMarshalArray {α β : Type} (f : α → Except String β) (units : List α) :
    Except String (JsonText β) :=
  match eachOrError f units with
  | .ok os => .ok (.array os)
  | .error e => .error e

/-- The call `json.Unmarshal` into one unit of the Go type `goType`, with the
decoder `g` of an object: an array is refused. -/
def jsonUnmarshalUnit {α β : Type} (goType : String) (g : β → Except String α) :
    JsonText β → Except String α
  | .object o => g o
  | .array _ => .error ("json: cannot unmarshal array into Go value of type " ++ goType)

/-- The call `json.Unmarshal` into a slice of pointers to units: an object is
refused. -/
def jsonUnmarshalArray {α β : Type} (goType : String) (g : β → Except String α) :
    JsonText β → Except String (List α)
  | .array os => eachOrError g os
  | .object _ => .error ("json: cannot unmarshal object into Go value of type []*" ++ goType)

/-- The method `RequestSlice.MarshalJSON`. -/
def RequestSlice.MarshalJSON (L : JsonWire) (requestSlice : RequestSlice) :
    Except String (JsonText RequestObject) :=
  if requestSlice.length = 1 then
    match requestSlice with
    | requestUnit :: _ => jsonMarshalUnit (marshalRequestUnit L) requestUnit
    | [] => jsonMarshalArray (marshalRequestUnit L) requestSlice
  else jsonMarshalArray (marshalRequestUnit L) requestSlice

/-- The method `RequestSlice.UnmarshalJSON`: the decoded batch, or the error of the array
decoding. -/
def RequestSlice.UnmarshalJSON (input : JsonText RequestObject) :
    Except String RequestSlice :=
  match jsonUnmarshalUnit "jsonrpc2.RequestUnit" unmarshalRequestObject input with
  | .ok requestUnit => .ok [requestUnit]
  | .error _ =>
    match jsonUnmarshalArray "jsonrpc2.RequestUnit" unmarshalRequestObject input with
    | .ok requestArray => .ok requestArray
    | .error err => .error err

/-- The method `ResponseSlice.MarshalJSON`. -/
def ResponseSlice.MarshalJSON (L : JsonWire) (responseSlice : ResponseSlice) :
    Except String (JsonText ResponseObject) :=
  if responseSlice.length = 1 then
    match responseSlice with
    | responseUnit :: _ => jsonMarshalUnit (marshalResponseUnit L) responseUnit
    | [] => jsonMarshalArray (marshalResponseUnit L) responseSlice
  else jsonMarshalArray (marshalResponseUnit L) responseSlice

/-- The method `ResponseSlice.UnmarshalJSON`. -/
def ResponseSlice.UnmarshalJSON (input : JsonText ResponseObject) :
    Except String ResponseSlice :=
  match jsonUnmarshalUnit "jsonrpc2.ResponseUnit" unmarshalResponseObject input with
  | .ok responseUnit => .ok [responseUnit]
  | .error _ =>
    match jsonUnmarshalArray "jsonrpc2.ResponseUnit" unmarshalResponseObject input with
    | .ok responseArray => .ok responseArray
    | .error err => .error err

/-- The ids that are not numbers of an integer type or values of another
dynamic type: nil, a boolean, a string, or a finite value of `float64`. -/
def ID.plain : ID → Bool
  | .null => true
  | .bool _ => true
  | .string _ => true
  | .float64 (.finite q) => (Float64.finite q).isValue
  | _ => false

/-- The payloads that `json.Marshal` writes as they are: a nil message (no
member), or a non-empty text that is compact already. -/
def compactPayload (L : JsonWire) : Option RawMessage → Bool
  | none => true
  | some text => text ≠ "" && L.compact text == .ok text

/-- A request unit with a plain id and a compact payload. -/
def RequestUnit.plain (L : JsonWire) (requestUnit : RequestUnit) : Bool :=
  requestUnit.ID.plain && compactPayload L requestUnit.Params

/-- A response unit with a plain id, compact payloads and an error code that is
an `int32`. -/
def ResponseUnit.plain (L : JsonWire) (responseUnit : ResponseUnit) : Bool :=
  responseUnit.ID.plain && compactPayload L responseUnit.Result &&
    (match responseUnit.Error with
     | none => true
     | some err =>
       decide (-(2 ^ 31) ≤ err.Code ∧ err.Code < 2 ^ 31) && compactPayload L err.Data)

/-! ## Client (`client.go`) -/

/-- The method `ClientTransport.Execute`: the returned batch, or the text of the error. -/
abbrev ClientTransport := RequestSlice → Except String ResponseSlice

/-- The struct `clientExecuteUnit`.  `executeMutex` is `none` for the nil
channel and `some n` for a channel on which `n` completion signals have been
sent and not yet received; `index` is an `int64`. -/
structure clientExecuteUnit where
  executeMutex : Option Nat
  index : Int
  method : String
  option : Option RawMessage
  result : Option RawMessage
  error : Option Error
deriving DecidableEq

/-- The method `clientExecuteUnit.Wait`: `none` when the receive on `executeMutex` blocks
because no signal is there, else the unit after the call. -/
def clientExecuteUnit.Wait (executeUnit : clientExecuteUnit) : Option clientExecuteUnit :=
  match executeUnit.executeMutex with
  | none => some executeUnit
  | some 0 => none
  | some (_ + 1) => some { executeUnit with executeMutex := none }

/-- The method `clientExecuteUnit.Response`.  The target `result` is nil or a pointer,
given by how `json.Unmarshal` decodes into it.  `none`: the call blocks in
`Wait`; otherwise the value decoded into the target, if any, and the returned
`*Error`. -/
def clientExecuteUnit.Response (J : JsonLib) (executeUnit : clientExecuteUnit)
    (result : Option ReflectType) : Option (Option GoValue × Option Error) :=
  match executeUnit.Wait with
  | none => none
  | some executeUnit =>
    match result, executeUnit.result with
    | some target, some raw =>
      match target.decode raw with
      | .ok v => some (some v, executeUnit.error)
      | .error e => some (none, some (NewErrorParseError J (some (.string e))))
    | _, _ => some (none, executeUnit.error)

/-- Arithmetic of `int64`: the representative in `[-2^63, 2^63)`. -/
def wrapInt64 (n : Int) : Int := (n + 2 ^ 63) % 2 ^ 64 - 2 ^ 63

/-- The conversion `int64(f)` of a `float64`: truncation toward zero when the
truncated value is an `int64`; Go leaves every other case to the platform,
which is the parameter `oor`. -/
def int64OfFloat64 (oor : Float64 → Int) (f : Float64) : Int :=
  match f with
  | .finite q =>
    if -(2 ^ 63) ≤ Int.tdiv q.num q.den ∧ Int.tdiv q.num q.den < 2 ^ 63 then
      Int.tdiv q.num q.den
    else oor f
  | _ => oor f

/-- The struct `Client` without its lock and its transport: the transport is
given to each dispatch cycle, since it may answer differently each time. -/
structure Client where
  executeIndex : Int
  executeArray : List clientExecuteUnit
deriving DecidableEq

def NewClient : Client := { executeIndex := 0, executeArray := [] }

/-- The method `Client.Execute`: the client afterwards and the returned unit. -/
def Client.Execute (J : JsonLib) (client : Client) (withIndex : Bool) (method : String)
    (option : Option GoValue) : Client × clientExecuteUnit :=
  let executeIndex := wrapInt64 (client.executeIndex + 1)
  let executeUnit : clientExecuteUnit :=
    { executeMutex := none
      index := if withIndex then executeIndex else wrapInt64 (-executeIndex)
      method := method, option := none, result := none, error := none }
  match option with
  | none =>
    let executeUnit := { executeUnit with executeMutex := some 0 }
    ({ executeIndex := executeIndex, executeArray := client.executeArray ++ [executeUnit] },
      executeUnit)
  | some v =>
    match jsonMarshal J v with
    | .error e =>
      ({ executeIndex := executeIndex, executeArray := client.executeArray },
        { executeUnit with error := some (NewErrorInvalidParams J (some (.string e))) })
    | .ok raw =>
      let executeUnit := { executeUnit with option := some raw, executeMutex := some 0 }
      ({ executeIndex := executeIndex, executeArray := client.executeArray ++ [executeUnit] },
        executeUnit)

/-- The request unit built for an execution unit (lines 142-150). -/
def requestUnitOf (executeUnit : clientExecuteUnit) : RequestUnit :=
  let requestUnit : RequestUnit :=
    { JsonRPC := "2.0", ID := ID.null, Method := executeUnit.method,
      Params := executeUnit.option }
  if executeUnit.index ≥ 0 then { requestUnit with ID := ID.int64 executeUnit.index }
  else requestUnit

/-- The map `executeMap`: an execution unit is a pointer into the snapshot of
the queue, named here by its position in the snapshot. -/
abbrev ExecuteMap := List (Int × Nat)

/-- The lookup `executeMap[k]`. -/
def mapGet : ExecuteMap → Int → Option Nat
  | [], _ => none
  | (k, p) :: m, key => if k = key then some p else mapGet m key

/-- The call `delete(executeMap, k)`. -/
def mapDelete (m : ExecuteMap) (key : Int) : ExecuteMap :=
  m.filter (fun e => e.1 ≠ key)

/-- The assignment `executeMap[k] = unit`. -/
def mapSet (m : ExecuteMap) (key : Int) (p : Nat) : ExecuteMap :=
  mapDelete m key ++ [(key, p)]

/-- Update through a pointer: the unit at position `p` of the snapshot. -/
def modifyAt {α : Type} (f : α → α) : List α → Nat → List α
  | [], _ => []
  | x :: xs, 0 => f x :: xs
  | x :: xs, p + 1 => x :: modifyAt f xs p

/-- The send `executeUnit.executeMutex <- true`. -/
def signal (executeUnit : clientExecuteUnit) : clientExecuteUnit :=
  { executeUnit with executeMutex := executeUnit.executeMutex.map (· + 1) }

/-- The first loop of `Client.execute` (lines 141-154), from position `p`. -/
def snapshot : List clientExecuteUnit → Nat → ExecuteMap → RequestSlice →
    ExecuteMap × RequestSlice
  | [], _, executeMap, requestSlice => (executeMap, requestSlice)
  | executeUnit :: rest, p, executeMap, requestSlice =>
    snapshot rest (p + 1) (mapSet executeMap executeUnit.index p)
      (requestSlice ++ [requestUnitOf executeUnit])

/-- The loop over `executeMap` after a transport failure (lines 161-164).  The
entries touch different units, so the order of the range does not matter. -/
def failAll (e : Error) (executeMap : ExecuteMap) (units : List clientExecuteUnit) :
    List clientExecuteUnit :=
  executeMap.foldl
    (fun units entry => modifyAt (fun u => signal { u with error := some e }) units entry.2)
    units

/-- The variables of the loop over the returned batch, and the lines it
prints. -/
structure Demux where
  executeIndex : Int
  executeMap : ExecuteMap
  units : List clientExecuteUnit
  log : List (String × ResponseUnit)

/-- One iteration of the loop over `responseSlice` (lines 169-189). -/
def demuxStep (oor : Float64 → Int) (st : Demux) (responseUnit : ResponseUnit) : Demux :=
  if responseUnit.ID ≠ ID.null then
    let executeIndex :=
      match responseUnit.ID with
      | .float64 executeIndexFloat => int64OfFloat64 oor executeIndexFloat
      | _ => st.executeIndex
    match mapGet st.executeMap executeIndex with
    | some p =>
      { executeIndex := executeIndex
        executeMap := mapDelete st.executeMap executeIndex
        units := modifyAt
          (fun u => signal { u with result := responseUnit.Result, error := responseUnit.Error })
          st.units p
        log := st.log }
    | none =>
      { st with
        executeIndex := executeIndex
        log := st.log ++ [("unknown executeUnit", responseUnit)] }
  else
    { st with log := st.log ++ [("unknown response unit", responseUnit)] }

/-- The last loop of `Client.execute` (lines 191-197). -/
def completeRest (J : JsonLib) (executeMap : ExecuteMap) (units : List clientExecuteUnit) :
    List clientExecuteUnit :=
  executeMap.foldl
    (fun units entry =>
      modifyAt
        (fun u =>
          signal (if u.index ≥ 0 then { u with error := some (NewErrorInternalError J none) }
            else u))
        units entry.2)
    units

/-- What one run of `Client.execute` does: the client afterwards, the batches
given to `transport.Execute`, the execution units of the snapshot afterwards
(in queue order) and the printed lines. -/
structure ExecuteOutcome where
  client : Client
  sent : List RequestSlice
  units : List clientExecuteUnit
  log : List (String × ResponseUnit)

/-- The method `Client.execute`, one dispatch cycle. -/
def Client.execute (oor : Float64 → Int) (J : JsonLib) (client : Client)
    (transport : ClientTransport) : ExecuteOutcome :=
  if client.executeArray.length = 0 then
    { client := client, sent := [], units := [], log := [] }
  else
    let s := snapshot client.executeArray 0 [] []
    match transport s.2 with
    | .error err =>
      { client := { client with executeArray := [] }
        sent := [s.2]
        units := failAll (NewErrorInternalError J (some (.string err))) s.1 client.executeArray
        log := [] }
    | .ok responseSlice =>
      let d := responseSlice.foldl (demuxStep oor)
        { executeIndex := 0, executeMap := s.1, units := client.executeArray, log := [] }
      { client := { client with executeArray := [] }
        sent := [s.2]
        units := completeRest J d.executeMap d.units
        log := d.log }

/-- The batch that a dispatch cycle of the client hands to the transport. -/
def Client.batch (client : Client) : RequestSlice :=
  (snapshot client.executeArray 0 [] []).2

/-- One call of `Request`, `Notification` or their deferred forms, as the
arguments it passes to `Client.Execute`. -/
structure Call where
  withIndex : Bool
  method : String
  option : Option GoValue
deriving DecidableEq

/-- The encoded params of a call: nil when it has none. -/
def Call.params (J : JsonLib) (call : Call) : Option RawMessage :=
  match call.option with
  | none => none
  | some v =>
    match jsonMarshal J v with
    | .ok raw => some raw
    | .error _ => none

/-- A sequence of calls of `Client.Execute`, one after the other. -/
def Client.ExecuteAll (J : JsonLib) (client : Client) (calls : List Call) : Client :=
  calls.foldl (fun c call => (c.Execute J call.withIndex call.method call.option).1) client

/-- The invariant of the client state: the counter has not wrapped, the
queued units are untouched since their creation, and their indices are the
counter values they were given, each used once. -/
def Client.WF (client : Client) : Prop :=
  0 ≤ client.executeIndex ∧ client.executeIndex < 2 ^ 63 ∧
  (∀ u ∈ client.executeArray, u.executeMutex = some 0 ∧ u.result = none ∧ u.error = none ∧
    1 ≤ u.index.natAbs ∧ (u.index.natAbs : Int) ≤ client.executeIndex) ∧
  (client.executeArray.map (fun u => u.index.natAbs)).Nodup

/-- States of a client made by `NewClient` and used through `Client.Execute`
and `Client.execute`, as long as the `int64` counter does not overflow. -/
inductive Client.Reachable (oor : Float64 → Int) (J : JsonLib) : Client → Prop
  | new : Client.Reachable oor J NewClient
  | enqueue (c : Client) (withIndex : Bool) (method : String) (option : Option GoValue) :
      Client.Reachable oor J c → c.executeIndex < 2 ^ 63 - 1 →
      Client.Reachable oor J (c.Execute J withIndex method option).1
  | dispatch (c : Client) (transport : ClientTransport) :
      Client.Reachable oor J c → Client.Reachable oor J (c.execute oor J transport).client

/-- The entries that the first loop of `Client.execute` adds for a queue whose
indices differ: index and position of each unit. -/
def entriesFrom : List clientExecuteUnit → Nat → ExecuteMap
  | [], _ => []
  | u :: rest, p => (u.index, p) :: entriesFrom rest (p + 1)

/-- Whether the loop over the returned batch looks up index `k` for this
response unit on account of its own id: the id is a `float64` and converts
to `k`. -/
def convertsTo (oor : Float64 → Int) (responseUnit : ResponseUnit) (k : Int) : Bool :=
  match responseUnit.ID with
  | .float64 f => int64OfFloat64 oor f == k
  | _ => false

/-! ## Concrete inputs -/

/-- A small instance of the JSON library: strings are put between quotes,
value `0` cannot be encoded, the other values encode as `1`. -/
def demoJson : JsonLib :=
  { quote := fun s => "\"" ++ s ++ "\""
    marshalOther := fun t => if t = 0 then .error "json: unsupported value" else .ok "1" }

/-- A handler that returns its decoded parameter. -/
def echoHandler : ServerHandlerUnit :=
  { Request := some { decode := fun p => .ok (.string p) }
    Response := none
    Function := some (fun a => (a, none)) }

/-- A handler whose request shape accepts no payload. -/
def strictHandler : ServerHandlerUnit :=
  { Request := some { decode := fun _ => .error "unexpected end of JSON input" }
    Response := none
    Function := some (fun a => (a, none)) }

/-- A server with the single method `echo`. -/
def demoServer : Server :=
  NewServer.HandleFunc "echo" echoHandler.Function echoHandler.Request none

/-- The request `echo` with id 1, as decoded from the wire. -/
def echoRequest : RequestUnit :=
  { JsonRPC := "2.0", ID := .float64 (.finite 1), Method := "echo", Params := some "7" }

/-- The response of `demoServer` to `echoRequest`. -/
def echoResponse : ResponseUnit :=
  { JsonRPC := "2.0", ID := .float64 (.finite 1), Result := some "\"7\"", Error := none }

/-- A unit with version 1.0 and id 2. -/
def oldVersionRequest : RequestUnit :=
  { JsonRPC := "1.0", ID := .float64 (.finite 2), Method := "echo", Params := none }

/-- A unit with version 1.0 and no id. -/
def oldVersionNotification : RequestUnit :=
  { JsonRPC := "1.0", ID := .null, Method := "log", Params := none }

/-- A notification of version 2.0 for the method `echo`. -/
def echoNotification : RequestUnit :=
  { JsonRPC := "2.0", ID := .null, Method := "echo", Params := some "7" }

/-- Two requests for a method that is not registered. -/
def nopeRequest (id : Rat) : RequestUnit :=
  { JsonRPC := "2.0", ID := .float64 (.finite id), Method := "nope", Params := none }

/-- The invalid-request response of `Server.Execute`. -/
def invalidRequestResponse : ResponseUnit :=
  { JsonRPC := "2.0", ID := .null, Result := none,
    Error := some { Code := -32600, Message := "Invalid Request", Data := none } }

/-- The platform's result for a `float64` that has no `int64` value: on amd64
the conversion gives the smallest `int64`. -/
def oorAmd64 : Float64 → Int := fun _ => -(2 ^ 63)

/-- The number 1.5. -/
def oneAndHalf : Rat := ⟨3, 2, by decide, by decide⟩

/-- A transport that returns an empty batch. -/
def silentTransport : ClientTransport := fun _ => .ok []

/-- A transport that fails. -/
def brokenTransport : ClientTransport := fun _ => .error "connection refused"

/-- A transport that returns one response unit, with id 1.5. -/
def halfTransport : ClientTransport := fun _ =>
  .ok [{ JsonRPC := "2.0", ID := .float64 (.finite oneAndHalf), Result := some "7",
         Error := none }]

/-- A transport that returns one response unit, with id 2. -/
def secondOnlyTransport : ClientTransport := fun _ =>
  .ok [{ JsonRPC := "2.0", ID := .float64 (.finite 2), Result := some "7", Error := none }]

/-- A new client after one `DeferRequest("m", nil)`. -/
def oneCall : Client :=
  NewClient.ExecuteAll demoJson [{ withIndex := true, method := "m", option := none }]

/-- The calls `DeferRequest("a", "x")` and `DeferRequest("b", nil)`. -/
def twoCalls : List Call :=
  [{ withIndex := true, method := "a", option := some (.string "x") },
   { withIndex := true, method := "b", option := none }]

instance Client.decidableWF (client : Client) : Decidable client.WF := by
  unfold Client.WF
  infer_instance

/-- The request units that the client builds for `twoCalls`. -/
def twoRequests : RequestSlice :=
  [{ JsonRPC := "2.0", ID := .int64 1, Method := "a", Params := some "\"x\"" },
   { JsonRPC := "2.0", ID := .int64 2, Method := "b", Params := none }]

/-- The units of `twoRequests` as the decoder returns them: the ids are
`float64`. -/
def twoRequestsDecoded : RequestSlice :=
  [{ JsonRPC := "2.0", ID := .float64 (.finite 1), Method := "a", Params := some "\"x\"" },
   { JsonRPC := "2.0", ID := .float64 (.finite 2), Method := "b", Params := none }]

/-- A library for the examples: the text `[1, 2]` is compacted, the text
`\x7b` is refused, every other text used is compact JSON already; ids of other
dynamic types are refused. -/
def demoWire : JsonWire :=
  { compact := fun text =>
      if text = "[1, 2]" then .ok "[1,2]"
      else if text = "\x7b" then .error "unexpected end of JSON input"
      else .ok text
    marshalOther := fun _ => .error "json: unsupported type" }

/-- A request with an empty, non-nil `Params`. -/
def emptyParamsRequest : RequestUnit :=
  { JsonRPC := "2.0", ID := .float64 (.finite 1), Method := "a", Params := some "" }

/-- A request whose `Params` holds white space. -/
def spacedParamsRequest : RequestUnit :=
  { JsonRPC := "2.0", ID := .float64 (.finite 1), Method := "a", Params := some "[1, 2]" }

/-! ## Id-keyed maps (`type.go`) -/

/-- Go's `==` on two ids held in an `interface{}`: the same dynamic type and
equal values, where `NaN` differs from itself. -/
def ID.goEq (a b : ID) : Bool :=
  a == b && a != ID.float64 Float64.nan

/-- Whether Go can hash the id as a map key.  For the values behind `ID.other`
this is the parameter `canHash`: the slices and maps that `encoding/json` makes
of an array id or an object id cannot be hashed. -/
def ID.hashable (canHash : Nat → Bool) : ID → Bool
  | .other tag => canHash tag
  | _ => true

/-- The type `RequestMap`: the entries of the map, key and unit, in the order
in which `range` visits them. -/
abbrev RequestMap := List (ID × RequestUnit)

/-- The type `ResponseMap`, likewise. -/
abbrev ResponseMap := List (ID × ResponseUnit)

/-- The lookup `requestMap[id]`: `none` is the run-time panic for an id that
cannot be hashed, `some none` the nil pointer for an absent key. -/
def RequestMap.lookup (canHash : Nat → Bool) (requestMap : RequestMap) (id : ID) :
    Option (Option RequestUnit) :=
  if id.hashable canHash then
    some ((requestMap.find? (fun e => e.1.goEq id)).map (fun e => e.2))
  else none

/-- The second loop of `RequestMap.GetSlice` (lines 130-134); `none` is a
panic. -/
def RequestMap.appendExt (canHash : Nat → Bool) (requestMap : RequestMap) :
    RequestSlice → RequestSlice → Option RequestSlice
  | [], requestSlice => some requestSlice
  | requestUnit :: rest, requestSlice =>
    if requestUnit.ID = ID.null then
      RequestMap.appendExt canHash requestMap rest (requestSlice ++ [requestUnit])
    else
      match RequestMap.lookup canHash requestMap requestUnit.ID with
      | none => none
      | some none => RequestMap.appendExt canHash requestMap rest (requestSlice ++ [requestUnit])
      | some (some _) => RequestMap.appendExt canHash requestMap rest requestSlice

/-- The method `RequestMap.GetSlice`; `extRequestSlice` is a pointer, `none`
when nil.  The result is `none` when the call panics. -/
def RequestMap.GetSlice (canHash : Nat → Bool) (requestMap : RequestMap)
    (extRequestSlice : Option RequestSlice) : Option RequestSlice :=
  let requestSlice := requestMap.foldl (fun requestSlice e => requestSlice ++ [e.2]) []
  match extRequestSlice with
  | none => some requestSlice
  | some ext => RequestMap.appendExt canHash requestMap ext requestSlice

/-- The lookup `responseMap[id]`. -/
def ResponseMap.lookup (canHash : Nat → Bool) (responseMap : ResponseMap) (id : ID) :
    Option (Option ResponseUnit) :=
  if id.hashable canHash then
    some ((responseMap.find? (fun e => e.1.goEq id)).map (fun e => e.2))
  else none

/-- The second loop of `ResponseMap.GetSlice` (lines 288-292). -/
def ResponseMap.appendExt (canHash : Nat → Bool) (responseMap : ResponseMap) :
    ResponseSlice → ResponseSlice → Option ResponseSlice
  | [], responseSlice => some responseSlice
  | responseUnit :: rest, responseSlice =>
    if responseUnit.ID = ID.null then
      ResponseMap.appendExt canHash responseMap rest (responseSlice ++ [responseUnit])
    else
      match ResponseMap.lookup canHash responseMap responseUnit.ID with
      | none => none
      | some none =>
        ResponseMap.appendExt canHash responseMap rest (responseSlice ++ [responseUnit])
      | some (some _) => ResponseMap.appendExt canHash responseMap rest responseSlice

/-- The method `ResponseMap.GetSlice`. -/
def ResponseMap.GetSlice (canHash : Nat → Bool) (responseMap : ResponseMap)
    (extResponseSlice : Option ResponseSlice) : Option ResponseSlice :=
  let responseSlice := responseMap.foldl (fun responseSlice e => responseSlice ++ [e.2]) []
  match extResponseSlice with
  | none => some responseSlice
  | some ext => ResponseMap.appendExt canHash responseMap ext responseSlice

/-- Whether `GetSlice` keeps a supplementary unit with this id: the id is nil,
or no key of the map is equal to it. -/
def keepsExt {α : Type} (entries : List (ID × α)) (id : ID) : Bool :=
  id == ID.null || entries.all (fun e => !(e.1.goEq id))

/-- A response unit with exactly one of result and error, and with a nil id only
when it is the invalid-request response. -/
def ResponseUnit.WellFormed (J : JsonLib) (r : ResponseUnit) : Prop :=
  (r.Result = none ↔ r.Error ≠ none) ∧
  (r.ID = ID.null →
    r = { JsonRPC := "2.0", ID := ID.null, Result := none,
          Error := some (NewErrorInvalidRequest J none) })

/-- No handler of the server returns a nil `*Error` as its failure. -/
def Server.NoNilError (server : Server) : Prop :=
  ∀ method handler function arg, server.handlerMap method = some handler →
    handler.Function = some function → (function arg).2 ≠ some (.protocol none)

/-! ## Further definitions for the client engine -/

/-- What a dispatch cycle whose transport call succeeds makes of a queued unit
(`Client.execute_units_spec`): the first returned unit whose id converts to
the index of the unit gives its result and its error; when there is none, the
last loop of `Client.execute` completes the unit. -/
def completedUnit (oor : Float64 → Int) (J : JsonLib) (responseSlice : ResponseSlice)
    (u : clientExecuteUnit) : clientExecuteUnit :=
  match responseSlice.find? (fun r => convertsTo oor r u.index) with
  | some r => signal { u with result := r.Result, error := r.Error }
  | none =>
    signal (if u.index ≥ 0 then { u with error := some (NewErrorInternalError J none) } else u)

/-- Whether `Client.Execute` can encode the params of a call, that is, whether
it appends a unit for the call. -/
def Call.encodable (J : JsonLib) (call : Call) : Bool :=
  match call.option with
  | none => true
  | some v =>
    match jsonMarshal J v with
    | .ok _ => true
    | .error _ => false

/-! ## Further concrete inputs -/

/-- A transport that returns one response unit, with id 1 and neither result
nor error. -/
def emptyReplyTransport : ClientTransport := fun _ =>
  .ok [{ JsonRPC := "2.0", ID := .float64 (.finite 1), Result := none, Error := none }]

/-- A target of `Response` into which every payload decodes, as a string. -/
def stringTarget : ReflectType := { decode := fun p => .ok (.string p) }

/-- The calls `DeferRequest("a", nil)` and `DeferNotification("n", nil)`. -/
def requestAndNotification : List Call :=
  [{ withIndex := true, method := "a", option := none },
   { withIndex := false, method := "n", option := none }]

/-- A transport that returns one response unit, with id -2. -/
def minusTwoTransport : ClientTransport := fun _ =>
  .ok [{ JsonRPC := "2.0", ID := .float64 (.finite (-2)), Result := some "7", Error := none }]

/-- The number 2.5. -/
def twoAndHalf : Rat := ⟨5, 2, by decide, by decide⟩

/-- A transport that returns one response unit, with id 2.5. -/
def twoAndHalfTransport : ClientTransport := fun _ =>
  .ok [{ JsonRPC := "2.0", ID := .float64 (.finite twoAndHalf), Result := some "7",
         Error := none }]

/-- A response unit whose id is the string `2`. -/
def stringIdResponse : ResponseUnit :=
  { JsonRPC := "2.0", ID := .string "2", Result := some "9", Error := none }

/-- A response unit with id 2. -/
def secondResponse : ResponseUnit :=
  { JsonRPC := "2.0", ID := .float64 (.finite 2), Result := some "7", Error := none }

/-- A response unit with id 1. -/
def firstResponse : ResponseUnit :=
  { JsonRPC := "2.0", ID := .float64 (.finite 1), Result := some "5", Error := none }

/-- A handler whose failure is a nil `*Error`. -/
def nilErrorHandler : ServerHandlerUnit :=
  { Request := none
    Response := none
    Function := some (fun _ => (some (.string "r"), some (.protocol none))) }

/-- A server with the single method `echo`, handled by `nilErrorHandler`. -/
def nilErrorServer : Server :=
  NewServer.HandleFunc "echo" nilErrorHandler.Function none none

/-- A request map with the single entry of `echoRequest`, under its id. -/
def echoMap : RequestMap := [(.float64 (.finite 1), echoRequest)]

/-- A response map with the single entry of `echoResponse`, under its id. -/
def echoResponseMap : ResponseMap := [(.float64 (.finite 1), echoResponse)]

/-- A request unit whose id stands for a JSON array. -/
def arrayIdRequest : RequestUnit :=
  { JsonRPC := "2.0", ID := .other 0, Method := "echo", Params := none }

/-! ## Inputs for the completion signal and for the encoding failure -/

/-- A transport that returns two response units with the same id 1. -/
def sameIdTwiceTransport : ClientTransport := fun _ =>
  .ok [{ JsonRPC := "2.0", ID := .float64 (.finite 1), Result := some "5", Error := none },
       { JsonRPC := "2.0", ID := .float64 (.finite 1), Result := some "6", Error := none }]

/-- The first unit that `twoCalls` puts in the queue. -/
def firstQueued : clientExecuteUnit :=
  { executeMutex := some 0, index := 1, method := "a", option := some "\"x\"",
    result := none, error := none }

/-! ## The server dispatcher: lemmas -/

theorem Server.loop_snoc (J : JsonLib) (server : Server) (st : ServerLoop)
    (pre : RequestSlice) (u : RequestUnit) :
    server.loop J st (pre ++ [u]) = server.step J (server.loop J st pre) u := by
  simp [Server.loop, List.foldl_append]

theorem NewError_string (J : JsonLib) (code : Int) (message text : String) :
    NewError J code message (some (.string text)) =
      { Code := code, Message := message, Data := some (J.quote text) } := by
  simp [NewError, jsonMarshal]

theorem NewError_none (J : JsonLib) (code : Int) (message : String) :
    NewError J code message none = { Code := code, Message := message, Data := none } := by
  simp [NewError]

theorem Server.step_method_not_found (J : JsonLib) (server : Server) (st : ServerLoop)
    (u : RequestUnit) (hv : u.JsonRPC = "2.0") (hid : hasID u.ID = true)
    (hm : server.handlerMap u.Method = none) :
    (server.step J st u).responseSlice = st.responseSlice ++
        [{ JsonRPC := "2.0", ID := u.ID, Result := none,
           Error := some { Code := -32601, Message := "Method not found",
                           Data := some (J.quote ("handler \"" ++ u.Method ++ "\" not founded")) } }] ∧
      (server.step J st u).calls = st.calls := by
  simp [Server.step, hv, hid, hm, NewErrorMethodNotFound, NewError_string]

/-! ## The server dispatcher: claims -/

/-- C4, as stated, fails: a unit without id whose version is not 2.0 gets the
invalid-request response. -/
theorem Server_Execute_old_version_notification_answered :
    oldVersionNotification.ID = ID.null ∧
    Server.Execute demoJson demoServer [oldVersionNotification] = [invalidRequestResponse] := by
  decide

/-- C4, amended: for every request batch and every unit in it that has version
2.0 and carries no id (nil, or a boolean, which `server.go` treats alike),
processing the unit after any units before it adds no response unit to the
response batch, whether its handler succeeds, fails or is not registered. -/
theorem Server_Execute_notification_no_response (J : JsonLib) (server : Server)
    (pre : RequestSlice) (u : RequestUnit) (hv : u.JsonRPC = "2.0")
    (hid : hasID u.ID = false) :
    (server.loop J ServerLoop.init (pre ++ [u])).responseSlice =
      (server.loop J ServerLoop.init pre).responseSlice := by
  rw [Server.loop_snoc]
  simp only [Server.step, hv, hid]
  cases server.handlerMap u.Method <;> simp

theorem Server_Execute_notification_no_response_witness :
    (echoNotification.JsonRPC = "2.0" ∧ hasID echoNotification.ID = false) ∧
    (demoServer.loop demoJson ServerLoop.init ([echoRequest] ++ [echoNotification])).responseSlice =
      (demoServer.loop demoJson ServerLoop.init [echoRequest]).responseSlice :=
  ⟨by decide,
    Server_Execute_notification_no_response demoJson demoServer [echoRequest] echoNotification
      (by decide) (by decide)⟩

/-- C5 at a failing input: a single unit with version 1.0 and id 2 gets two
responses from `Server.Execute`, the invalid-request one and a
method-not-found one with id 2, although its method is registered. -/
theorem Server_Execute_old_version_with_id :
    Server.Execute demoJson demoServer [oldVersionRequest] =
      [invalidRequestResponse,
       { JsonRPC := "2.0", ID := .float64 (.finite 2), Result := none,
         Error := some { Code := -32601, Message := "Method not found",
                         Data := some "\"handler \"echo\" not founded\"" } }] := by
  decide

/-- C6: for every unit with version 2.0 that carries an id (in the sense of
`server.go`: not nil and not a boolean) and names a method without handler,
processing it after any units before it adds exactly one response, with
error code -32601, no result and the id of the unit, and invokes no handler;
two such units in one batch get one response each, with their own ids. -/
theorem Server_Execute_method_not_found (J : JsonLib) (server : Server)
    (pre : RequestSlice) (u v : RequestUnit)
    (hu : u.JsonRPC = "2.0" ∧ hasID u.ID = true ∧ server.handlerMap u.Method = none)
    (hv : v.JsonRPC = "2.0" ∧ hasID v.ID = true ∧ server.handlerMap v.Method = none) :
    (∃ e, (server.loop J ServerLoop.init (pre ++ [u])).responseSlice =
        (server.loop J ServerLoop.init pre).responseSlice ++
          [{ JsonRPC := "2.0", ID := u.ID, Result := none, Error := some e }] ∧
        e.Code = -32601 ∧ e.Message = "Method not found" ∧
        (server.loop J ServerLoop.init (pre ++ [u])).calls =
          (server.loop J ServerLoop.init pre).calls) ∧
    (∃ eu ev, server.Execute J [u, v] =
        [{ JsonRPC := "2.0", ID := u.ID, Result := none, Error := some eu },
         { JsonRPC := "2.0", ID := v.ID, Result := none, Error := some ev }] ∧
        eu.Code = -32601 ∧ ev.Code = -32601) := by
  obtain ⟨hu1, hu2, hu3⟩ := hu
  obtain ⟨hv1, hv2, hv3⟩ := hv
  refine ⟨⟨{ Code := -32601, Message := "Method not found",
              Data := some (J.quote ("handler \"" ++ u.Method ++ "\" not founded")) },
            ?_, rfl, rfl, ?_⟩,
          ⟨{ Code := -32601, Message := "Method not found",
             Data := some (J.quote ("handler \"" ++ u.Method ++ "\" not founded")) },
           { Code := -32601, Message := "Method not found",
             Data := some (J.quote ("handler \"" ++ v.Method ++ "\" not founded")) },
           ?_, rfl, rfl⟩⟩
  · rw [Server.loop_snoc]
    exact (Server.step_method_not_found J server _ u hu1 hu2 hu3).1
  · rw [Server.loop_snoc]
    exact (Server.step_method_not_found J server _ u hu1 hu2 hu3).2
  · have h1 := Server.step_method_not_found J server ServerLoop.init u hu1 hu2 hu3
    have h2 := Server.step_method_not_found J server (server.step J ServerLoop.init u) v
      hv1 hv2 hv3
    simp only [Server.Execute, Server.loop, List.foldl_cons, List.foldl_nil]
    rw [h2.1, h1.1]
    simp [ServerLoop.init]

theorem Server_Execute_method_not_found_witness :
    ((nopeRequest 1).JsonRPC = "2.0" ∧ hasID (nopeRequest 1).ID = true ∧
        demoServer.handlerMap (nopeRequest 1).Method = none) ∧
    ((nopeRequest 2).JsonRPC = "2.0" ∧ hasID (nopeRequest 2).ID = true ∧
        demoServer.handlerMap (nopeRequest 2).Method = none) ∧
    (∃ eu ev, demoServer.Execute demoJson [nopeRequest 1, nopeRequest 2] =
        [{ JsonRPC := "2.0", ID := (nopeRequest 1).ID, Result := none, Error := some eu },
         { JsonRPC := "2.0", ID := (nopeRequest 2).ID, Result := none, Error := some ev }] ∧
        eu.Code = -32601 ∧ ev.Code = -32601) :=
  ⟨⟨by decide, by decide, rfl⟩, ⟨by decide, by decide, rfl⟩,
    (Server_Execute_method_not_found demoJson demoServer [echoRequest] (nopeRequest 1)
      (nopeRequest 2) ⟨by decide, by decide, rfl⟩ ⟨by decide, by decide, rfl⟩).2⟩

/-! ## The handler: lemmas and claims -/

theorem ServerHandlerUnit.invoke_of_calls (J : JsonLib) (handler : ServerHandlerUnit)
    (u : RequestUnit) (function : ServerHandlerFunc) (arg : Option GoValue)
    (hf : handler.Function = some function)
    (hinv : (handler.invoke J u).2.2 = [arg]) :
    handler.invoke J u =
      (if (function arg).1 ≠ none ∧
            (if (function arg).1 = none ∧ (function arg).2 = none then
              some (GoError.other "handler function return nothing")
            else (function arg).2) ≠ none then none else (function arg).1,
        (match (if (function arg).1 = none ∧ (function arg).2 = none then
              some (GoError.other "handler function return nothing")
            else (function arg).2) with
          | none => none
          | some (.protocol e) => e
          | some (.other text) => some (NewErrorInternalError J (some (.string text)))),
        [arg]) := by
  unfold ServerHandlerUnit.invoke at hinv ⊢
  rw [hf] at hinv ⊢
  rcases hp : u.Params with _ | params <;> rcases hr : handler.Request with _ | ty <;>
    simp only [hp, hr] at hinv ⊢
  · simp at hinv; subst hinv; rfl
  · simp at hinv; subst hinv; rfl
  · simp at hinv; subst hinv; rfl
  · rcases hd : ty.decode params with e | v <;> simp only [hd] at hinv ⊢
    · simp at hinv
    · simp at hinv; subst hinv; rfl

theorem ServerHandlerUnit.calls_eq (J : JsonLib) (handler : ServerHandlerUnit) (u : RequestUnit) :
    (handler.Execute J (some u)).calls = (handler.invoke J u).2.2 := by
  unfold ServerHandlerUnit.Execute
  dsimp only
  split <;> rfl

/-- The return contract of a handler function that `ServerHandlerUnit.Execute`
invokes (with argument `arg`) for a unit carrying an id: a response is built;
neither a result nor a failure gives the internal error -32603 and no result;
a failure that is not a nil `*Error`, with or without a result, gives no
result and an error, which is the `*Error` itself when the failure is one and
otherwise the internal error -32603 whose data is the encoded text of the
failure. -/
theorem ServerHandlerUnit.Execute_return_contract (J : JsonLib) (handler : ServerHandlerUnit)
    (u : RequestUnit) (function : ServerHandlerFunc) (arg : Option GoValue)
    (hid : hasID u.ID = true) (hf : handler.Function = some function)
    (hinv : (handler.Execute J (some u)).calls = [arg]) :
    ∃ r, (handler.Execute J (some u)).responseUnit = some r ∧
      ((function arg).1 = none → (function arg).2 = none →
        r.Result = none ∧
        r.Error = some { Code := -32603, Message := "Internal error",
                         Data := some (J.quote "handler function return nothing") }) ∧
      (∀ p, (function arg).2 = some (.protocol (some p)) →
        r.Result = none ∧ r.Error = some p) ∧
      (∀ text, (function arg).2 = some (.other text) →
        r.Result = none ∧
        r.Error = some { Code := -32603, Message := "Internal error",
                         Data := some (J.quote text) }) ∧
      (∀ g, (function arg).2 = some g → g ≠ .protocol none →
        r.Result = none ∧ r.Error ≠ none) := by
  rw [ServerHandlerUnit.calls_eq] at hinv
  have h := ServerHandlerUnit.invoke_of_calls J handler u function arg hf hinv
  unfold ServerHandlerUnit.Execute
  simp only [hid, if_true, h]
  refine ⟨_, rfl, ?_, ?_, ?_, ?_⟩
  · intro h1 h2
    simp [h1, h2, NewErrorInternalError, NewError_string]
  · intro p hp
    cases hres : (function arg).1 <;> simp [hp]
  · intro text ht
    cases hres : (function arg).1 <;> simp [ht, NewErrorInternalError, NewError_string]
  · intro g hg hne
    rcases g with (_ | p) | text
    · exact absurd rfl hne
    · cases hres : (function arg).1 <;> simp [hg]
    · cases hres : (function arg).1 <;> simp [hg, NewErrorInternalError, NewError_string]

/-- C7 at a failing input: the handler function of `nilErrorHandler` is invoked
for the request `echoRequest`, which carries the id 1, and returns both a
result and a failure, a nil `*Error`; the response of
`ServerHandlerUnit.Execute` has no result and no error, so it does not carry
the failure. -/
theorem ServerHandlerUnit_Execute_nil_error_dropped :
    hasID echoRequest.ID = true ∧
    (∃ function, nilErrorHandler.Function = some function ∧
      function none = (some (.string "r"), some (.protocol none))) ∧
    (nilErrorHandler.Execute demoJson (some echoRequest)).calls = [none] ∧
    (nilErrorHandler.Execute demoJson (some echoRequest)).responseUnit =
      some { JsonRPC := "2.0", ID := .float64 (.finite 1), Result := none, Error := none } :=
  ⟨by decide, ⟨_, rfl, rfl⟩, by decide, by decide⟩

/-- C8: for every request unit with params and every handler with a function
and a request shape, if decoding the params into the shape fails then
`ServerHandlerUnit.Execute` does not invoke the function, and when the unit
carries an id the response has the invalid-params error -32602, with the
encoded text of the decoding failure as data, and no result. -/
theorem ServerHandlerUnit_Execute_invalid_params (J : JsonLib) (handler : ServerHandlerUnit)
    (u : RequestUnit) (function : ServerHandlerFunc) (requestType : ReflectType)
    (params : RawMessage) (e : String)
    (hf : handler.Function = some function) (hty : handler.Request = some requestType)
    (hp : u.Params = some params) (hdec : requestType.decode params = .error e) :
    (handler.Execute J (some u)).calls = [] ∧
    (hasID u.ID = true →
      (handler.Execute J (some u)).responseUnit = some
        { JsonRPC := u.JsonRPC, ID := u.ID, Result := none,
          Error := some { Code := -32602, Message := "Invalid params",
                          Data := some (J.quote e) } }) := by
  have h : handler.invoke J u =
      (none, some { Code := -32602, Message := "Invalid params", Data := some (J.quote e) },
        []) := by
    simp [ServerHandlerUnit.invoke, hf, hty, hp, hdec, NewErrorInvalidParams, NewError_string]
  constructor
  · rw [ServerHandlerUnit.calls_eq, h]
  · intro hid
    simp [ServerHandlerUnit.Execute, hid, h]

theorem ServerHandlerUnit_Execute_invalid_params_witness :
    (strictHandler.Function = some (fun a => (a, none)) ∧
      (echoRequest.Params = some "7") ∧ hasID echoRequest.ID = true) ∧
    (strictHandler.Execute demoJson (some echoRequest)).calls = [] ∧
    (hasID echoRequest.ID = true →
      (strictHandler.Execute demoJson (some echoRequest)).responseUnit = some
        { JsonRPC := echoRequest.JsonRPC, ID := echoRequest.ID, Result := none,
          Error := some { Code := -32602, Message := "Invalid params",
                          Data := some (demoJson.quote "unexpected end of JSON input") } }) :=
  ⟨⟨rfl, rfl, by decide⟩,
    ServerHandlerUnit_Execute_invalid_params demoJson strictHandler echoRequest
      (fun a => (a, none)) { decode := fun _ => .error "unexpected end of JSON input" } "7"
      "unexpected end of JSON input" rfl rfl rfl rfl⟩

/-- C10 at a failing input: the response batch for a registered request
followed by a unit with version 1.0 and id 2 repeats the response of the first
unit, while the two units executed alone give the response of the first, the
invalid-request response and a method-not-found response with id 2. -/
theorem Server_Execute_units_not_independent :
    Server.Execute demoJson demoServer [echoRequest, oldVersionRequest] =
      [echoResponse, invalidRequestResponse, echoResponse] ∧
    Server.Execute demoJson demoServer [echoRequest] ++
        Server.Execute demoJson demoServer [oldVersionRequest] =
      [echoResponse, invalidRequestResponse,
       { JsonRPC := "2.0", ID := .float64 (.finite 2), Result := none,
         Error := some { Code := -32601, Message := "Method not found",
                         Data := some "\"handler \"echo\" not founded\"" } }] := by
  decide


/-! ## The client engine: lemmas -/

theorem modifyAt_getElem? {α : Type} (f : α → α) (xs : List α) (p q : Nat) :
    (modifyAt f xs p)[q]? = if p = q then (xs[q]?).map f else xs[q]? := by
  induction xs generalizing p q with
  | nil => simp [modifyAt]
  | cons x xs ih =>
    cases p with
    | zero =>
      cases q with
      | zero => simp [modifyAt]
      | succ q => simp [modifyAt]
    | succ p =>
      cases q with
      | zero => simp [modifyAt]
      | succ q => simp [modifyAt, ih]

theorem foldl_modifyAt_getElem? (f : clientExecuteUnit → clientExecuteUnit) (m : ExecuteMap)
    (units : List clientExecuteUnit) (q : Nat) :
    (m.foldl (fun units entry => modifyAt f units entry.2) units)[q]? =
      (units[q]?).map (f^[(m.filter (fun e => e.2 = q)).length]) := by
  induction m generalizing units with
  | nil => simp
  | cons e m ih =>
    rw [List.foldl_cons, ih, modifyAt_getElem?]
    by_cases h : e.2 = q
    · simp [h, List.filter_cons, Function.iterate_succ]
    · simp [h, List.filter_cons]

theorem foldl_modifyAt_once (f : clientExecuteUnit → clientExecuteUnit) (m : ExecuteMap)
    (units : List clientExecuteUnit) (q : Nat) (e : Int × Nat) (u : clientExecuteUnit)
    (hm : m.filter (fun e => e.2 = q) = [e]) (hu : units[q]? = some u) :
    (m.foldl (fun units entry => modifyAt f units entry.2) units)[q]? = some (f u) := by
  rw [foldl_modifyAt_getElem?, hm, hu]
  simp

theorem mapGet_mem (m : ExecuteMap) (key : Int) (p : Nat) (h : mapGet m key = some p) :
    (key, p) ∈ m := by
  induction m with
  | nil => simp [mapGet] at h
  | cons e m ih =>
    obtain ⟨k, q⟩ := e
    simp only [mapGet] at h
    by_cases hk : k = key
    · simp [hk] at h
      simp [hk, h]
    · simp [hk] at h
      exact List.mem_cons_of_mem _ (ih h)

theorem snapshot_snd (units : List clientExecuteUnit) (p : Nat) (m : ExecuteMap)
    (requestSlice : RequestSlice) :
    (snapshot units p m requestSlice).2 = requestSlice ++ units.map requestUnitOf := by
  induction units generalizing p m requestSlice with
  | nil => simp [snapshot]
  | cons u rest ih => simp [snapshot, ih]

theorem snapshot_fst (units : List clientExecuteUnit) (p : Nat) (m : ExecuteMap)
    (requestSlice : RequestSlice)
    (hfresh : ∀ u ∈ units, ∀ e ∈ m, e.1 ≠ u.index)
    (hnodup : (units.map (fun u => u.index)).Nodup) :
    (snapshot units p m requestSlice).1 = m ++ entriesFrom units p := by
  induction units generalizing p m requestSlice with
  | nil => simp [snapshot, entriesFrom]
  | cons u rest ih =>
    have hset : mapSet m u.index p = m ++ [(u.index, p)] := by
      simp only [mapSet, mapDelete]
      congr 1
      rw [List.filter_eq_self]
      intro e he
      simpa using hfresh u (List.mem_cons_self _ _) e he
    simp only [List.map_cons, List.nodup_cons] at hnodup
    rw [snapshot, hset, ih _ _ _ _ hnodup.2]
    · simp [entriesFrom]
    · intro u' hu' e he
      rcases List.mem_append.1 he with he | he
      · exact hfresh u' (List.mem_cons_of_mem _ hu') e he
      · simp only [List.mem_singleton] at he
        subst he
        intro heq
        exact hnodup.1 (List.mem_map.2 ⟨u', hu', heq.symm⟩)

theorem entriesFrom_pos (units : List clientExecuteUnit) (p : Nat) :
    ∀ e ∈ entriesFrom units p, p ≤ e.2 := by
  induction units generalizing p with
  | nil => simp [entriesFrom]
  | cons u rest ih =>
    intro e he
    simp only [entriesFrom, List.mem_cons] at he
    rcases he with he | he
    · subst he; exact Nat.le_refl _
    · exact Nat.le_of_succ_le (ih (p + 1) e he)

theorem entriesFrom_filter (units : List clientExecuteUnit) (p i : Nat) (u : clientExecuteUnit)
    (hu : units[i]? = some u) :
    (entriesFrom units p).filter (fun e => e.2 = p + i) = [(u.index, p + i)] := by
  induction units generalizing p i with
  | nil => simp at hu
  | cons v rest ih =>
    cases i with
    | zero =>
      simp only [List.getElem?_cons_zero, Option.some.injEq] at hu
      subst hu
      have hrest : (entriesFrom rest (p + 1)).filter (fun e => e.2 = p) = [] := by
        rw [List.filter_eq_nil_iff]
        intro e he
        have := entriesFrom_pos rest (p + 1) e he
        simp
        omega
      simp [entriesFrom, List.filter_cons, hrest]
    | succ i =>
      simp only [List.getElem?_cons_succ] at hu
      have h := ih (p + 1) i hu
      have hp : p + 1 + i = p + (i + 1) := by omega
      rw [hp] at h
      simp [entriesFrom, List.filter_cons, h]

theorem Client.WF_nodup (client : Client) (hwf : client.WF) :
    (client.executeArray.map (fun u => u.index)).Nodup := by
  have h := hwf.2.2.2
  have : client.executeArray.map (fun u => u.index.natAbs) =
      (client.executeArray.map (fun u => u.index)).map Int.natAbs := by
    simp
  rw [this] at h
  exact List.Nodup.of_map _ h

theorem Client.WF_snapshot (client : Client) (hwf : client.WF) :
    (snapshot client.executeArray 0 [] []).1 = entriesFrom client.executeArray 0 := by
  rw [snapshot_fst _ _ _ _ _ (Client.WF_nodup client hwf)]
  · simp
  · intro u _ e he
    simp at he

theorem Client.WF_entry (client : Client) (hwf : client.WF) (p : Nat) (u : clientExecuteUnit)
    (hu : client.executeArray[p]? = some u) :
    (snapshot client.executeArray 0 [] []).1.filter (fun e => e.2 = p) = [(u.index, p)] := by
  rw [Client.WF_snapshot client hwf]
  simpa using entriesFrom_filter client.executeArray 0 p u hu

theorem demuxStep_keeps (oor : Float64 → Int) (st : Demux) (r : ResponseUnit) (k : Int)
    (p : Nat) (u : clientExecuteUnit)
    (hr : convertsTo oor r k = false) (hidx : st.executeIndex ≠ k)
    (hmap : st.executeMap.filter (fun e => e.2 = p) = [(k, p)])
    (hunit : st.units[p]? = some u) :
    (demuxStep oor st r).executeIndex ≠ k ∧
    (demuxStep oor st r).executeMap.filter (fun e => e.2 = p) = [(k, p)] ∧
    (demuxStep oor st r).units[p]? = some u := by
  unfold demuxStep
  by_cases hnull : r.ID = ID.null
  · simp [hnull, hidx, hmap, hunit]
  · simp only [hnull, ne_eq, not_false_eq_true, if_true]
    have hex : (match r.ID with
        | .float64 executeIndexFloat => int64OfFloat64 oor executeIndexFloat
        | _ => st.executeIndex) ≠ k := by
      unfold convertsTo at hr
      split
      · next f hf =>
        rw [hf] at hr
        simpa using hr
      · exact hidx
    generalize (match r.ID with
        | .float64 executeIndexFloat => int64OfFloat64 oor executeIndexFloat
        | _ => st.executeIndex) = ex at hex
    cases hget : mapGet st.executeMap ex with
    | none => simp [hex, hmap, hunit]
    | some q =>
      have hmem := mapGet_mem _ _ _ hget
      have hq : q ≠ p := by
        intro hqp
        subst hqp
        have : (ex, q) ∈ st.executeMap.filter (fun e => e.2 = q) := by
          simp [List.mem_filter, hmem]
        rw [hmap] at this
        simp at this
        exact hex this
      refine ⟨hex, ?_, ?_⟩
      · simp only [mapDelete]
        rw [List.filter_filter]
        have : (st.executeMap.filter (fun e => e.2 = p)).filter (fun e => e.1 ≠ ex) = [(k, p)] := by
          rw [hmap]
          simp [List.filter_cons, Ne.symm hex]
        rw [List.filter_filter] at this
        rw [← this]
        congr 1
        funext e
        simp [Bool.and_comm]
      · simp only [modifyAt_getElem?, hq, if_false, hunit]

theorem demux_keeps (oor : Float64 → Int) (responseSlice : ResponseSlice) (st : Demux)
    (k : Int) (p : Nat) (u : clientExecuteUnit)
    (hr : ∀ r ∈ responseSlice, convertsTo oor r k = false) (hidx : st.executeIndex ≠ k)
    (hmap : st.executeMap.filter (fun e => e.2 = p) = [(k, p)])
    (hunit : st.units[p]? = some u) :
    (responseSlice.foldl (demuxStep oor) st).executeMap.filter (fun e => e.2 = p) = [(k, p)] ∧
    (responseSlice.foldl (demuxStep oor) st).units[p]? = some u := by
  induction responseSlice generalizing st with
  | nil => exact ⟨hmap, hunit⟩
  | cons r rest ih =>
    obtain ⟨h1, h2, h3⟩ := demuxStep_keeps oor st r k p u
      (hr r (List.mem_cons_self _ _)) hidx hmap hunit
    exact ih _ (fun r' hr' => hr r' (List.mem_cons_of_mem _ hr')) h1 h2 h3

theorem Client.execute_failure_units (oor : Float64 → Int) (J : JsonLib) (client : Client)
    (transport : ClientTransport) (err : String) (hne : client.executeArray ≠ [])
    (hfail : transport client.batch = .error err) :
    (client.execute oor J transport).units =
      failAll (NewErrorInternalError J (some (.string err)))
        (snapshot client.executeArray 0 [] []).1 client.executeArray := by
  unfold Client.batch at hfail
  have : client.executeArray.length ≠ 0 := by
    simpa [List.length_eq_zero] using hne
  simp [Client.execute, this, hfail]

theorem Client.execute_success_units (oor : Float64 → Int) (J : JsonLib) (client : Client)
    (transport : ClientTransport) (responseSlice : ResponseSlice)
    (hne : client.executeArray ≠ [])
    (hok : transport client.batch = .ok responseSlice) :
    (client.execute oor J transport).units =
      completeRest J
        (responseSlice.foldl (demuxStep oor)
          { executeIndex := 0, executeMap := (snapshot client.executeArray 0 [] []).1,
            units := client.executeArray, log := [] }).executeMap
        (responseSlice.foldl (demuxStep oor)
          { executeIndex := 0, executeMap := (snapshot client.executeArray 0 [] []).1,
            units := client.executeArray, log := [] }).units := by
  unfold Client.batch at hok
  have : client.executeArray.length ≠ 0 := by
    simpa [List.length_eq_zero] using hne
  simp [Client.execute, this, hok]

/-- C2: in every dispatch cycle (of a client in a state satisfying the
invariant `Client.WF`) in which the transport returns a failure, every unit of
the batch, so every call that expects a response, ends with no stored result
and the stored internal error -32603, whose data is the encoded text of the
failure; `Response` on it returns, decodes nothing and yields that error. -/
theorem Client_execute_transport_failure (oor : Float64 → Int) (J : JsonLib)
    (client : Client) (transport : ClientTransport) (err : String)
    (hwf : client.WF) (hfail : transport client.batch = .error err)
    (p : Nat) (u : clientExecuteUnit) (hu : client.executeArray[p]? = some u)
    (target : Option ReflectType) :
    ∃ u', (client.execute oor J transport).units[p]? = some u' ∧
      u'.index = u.index ∧ u'.result = none ∧
      u'.error = some { Code := -32603, Message := "Internal error",
                        Data := some (J.quote err) } ∧
      u'.Response J target =
        some (none, some { Code := -32603, Message := "Internal error",
                           Data := some (J.quote err) }) := by
  have hne : client.executeArray ≠ [] := by
    intro h
    simp [h] at hu
  have hmem : u ∈ client.executeArray := List.getElem?_mem hu
  obtain ⟨hmutex, hresult, -, -, -⟩ := hwf.2.2.1 u hmem
  rw [Client.execute_failure_units oor J client transport err hne hfail]
  unfold failAll
  rw [foldl_modifyAt_once _ _ _ p _ u (Client.WF_entry client hwf p u hu) hu]
  refine ⟨_, rfl, ?_, ?_, ?_, ?_⟩
  · simp [signal]
  · simp [signal, hresult]
  · simp [signal, NewErrorInternalError, NewError_string]
  · simp [clientExecuteUnit.Response, clientExecuteUnit.Wait, signal, hmutex, hresult,
      NewErrorInternalError, NewError_string]

/-- C3, amended: in every dispatch cycle (of a client in a state satisfying
`Client.WF`) whose transport call succeeds, every call of the batch that
expects a response and to whose index no returned response unit has an id
converting (a `float64` id, truncated toward zero by `int64(...)`) is
completed with the internal error -32603 and no result, and `Response` on it
returns that error instead of blocking. -/
theorem Client_execute_unanswered_call (oor : Float64 → Int) (J : JsonLib)
    (client : Client) (transport : ClientTransport) (responseSlice : ResponseSlice)
    (hwf : client.WF) (hok : transport client.batch = .ok responseSlice)
    (p : Nat) (u : clientExecuteUnit) (hu : client.executeArray[p]? = some u)
    (hresp : 0 ≤ u.index)
    (hnone : ∀ r ∈ responseSlice, convertsTo oor r u.index = false)
    (target : Option ReflectType) :
    ∃ u', (client.execute oor J transport).units[p]? = some u' ∧
      u'.index = u.index ∧ u'.result = none ∧
      u'.error = some { Code := -32603, Message := "Internal error", Data := none } ∧
      u'.Response J target =
        some (none, some { Code := -32603, Message := "Internal error", Data := none }) := by
  have hne : client.executeArray ≠ [] := by
    intro h
    simp [h] at hu
  have hmem : u ∈ client.executeArray := List.getElem?_mem hu
  obtain ⟨hmutex, hresult, -, hpos, -⟩ := hwf.2.2.1 u hmem
  have hzero : (0 : Int) ≠ u.index := by
    intro h
    rw [← h] at hpos
    simp at hpos
  obtain ⟨hmap, hunit⟩ := demux_keeps oor responseSlice
    { executeIndex := 0, executeMap := (snapshot client.executeArray 0 [] []).1,
      units := client.executeArray, log := [] } u.index p u hnone hzero
    (Client.WF_entry client hwf p u hu) hu
  rw [Client.execute_success_units oor J client transport responseSlice hne hok]
  unfold completeRest
  rw [foldl_modifyAt_once _ _ _ p _ u hmap hunit]
  refine ⟨_, rfl, ?_, ?_, ?_, ?_⟩
  · simp [signal, hresp]
  · simp [signal, hresult, hresp]
  · simp [signal, hresp, NewErrorInternalError, NewError_none]
  · simp [clientExecuteUnit.Response, clientExecuteUnit.Wait, signal, hmutex, hresult, hresp,
      NewErrorInternalError, NewError_none]

theorem wrapInt64_of_range (n : Int) (h1 : -(2 ^ 63) ≤ n) (h2 : n < 2 ^ 63) : wrapInt64 n = n := by
  unfold wrapInt64
  omega

theorem Client.Execute_queue (J : JsonLib) (client : Client) (withIndex : Bool)
    (method : String) (option : Option GoValue)
    (henc : ∀ v, option = some v → ∃ raw, jsonMarshal J v = .ok raw) :
    ∃ u, (client.Execute J withIndex method option).1.executeArray = client.executeArray ++ [u] ∧
      u.method = method ∧
      u.option = Call.params J { withIndex := withIndex, method := method, option := option } := by
  cases option with
  | none => exact ⟨_, rfl, rfl, rfl⟩
  | some v =>
    obtain ⟨raw, hraw⟩ := henc v rfl
    refine ⟨{ executeMutex := some 0,
              index := if withIndex then wrapInt64 (client.executeIndex + 1)
                else wrapInt64 (-wrapInt64 (client.executeIndex + 1)),
              method := method, option := some raw, result := none, error := none }, ?_, rfl, ?_⟩
    · simp [Client.Execute, hraw]
    · simp [Call.params, hraw]

theorem Client.ExecuteAll_queue (J : JsonLib) (client : Client) (calls : List Call)
    (henc : ∀ call ∈ calls, ∀ v, call.option = some v → ∃ raw, jsonMarshal J v = .ok raw) :
    (client.ExecuteAll J calls).executeArray.map (fun u => (u.method, u.option)) =
      client.executeArray.map (fun u => (u.method, u.option)) ++
        calls.map (fun call => (call.method, call.params J)) := by
  induction calls generalizing client with
  | nil => simp [Client.ExecuteAll]
  | cons call rest ih =>
    obtain ⟨u, hq, hm, ho⟩ := Client.Execute_queue J client call.withIndex call.method
      call.option (henc call (List.mem_cons_self _ _))
    have := ih (client.Execute J call.withIndex call.method call.option).1
      (fun c hc => henc c (List.mem_cons_of_mem _ hc))
    simp only [Client.ExecuteAll, List.foldl_cons] at this ⊢
    rw [this, hq]
    simp [hm, ho]

theorem requestUnitOf_fields (u : clientExecuteUnit) :
    ((requestUnitOf u).Method, (requestUnitOf u).Params) = (u.method, u.option) := by
  unfold requestUnitOf
  dsimp only
  split <;> rfl

theorem Client.batch_eq (client : Client) :
    client.batch = client.executeArray.map requestUnitOf := by
  simp [Client.batch, snapshot_snd]

theorem Client.execute_sent (oor : Float64 → Int) (J : JsonLib) (client : Client)
    (transport : ClientTransport) :
    (client.execute oor J transport).sent =
      (if client.executeArray = [] then [] else [client.batch]) ∧
    (client.execute oor J transport).client.executeArray = [] := by
  unfold Client.execute Client.batch
  by_cases h : client.executeArray = []
  · simp [h]
  · have : client.executeArray.length ≠ 0 := by
      simpa [List.length_eq_zero] using h
    simp only [this, if_false, h]
    cases transport (snapshot client.executeArray 0 [] []).2 <;> simp

/-! ## The client engine: claims -/

/-- C1, amended: for every sequence of at least one call enqueued on a client
(`Client.Execute`, with encodable params), one run of `Client.execute` gives
the transport exactly one batch; the batch has, in order, one request unit
for each unit that was pending before and one for each enqueued call, with
the method and the encoded params of the call; the pending queue is empty
afterwards, and a further run without new calls gives the transport nothing. -/
theorem Client_execute_sends_each_call_once (oor : Float64 → Int) (J : JsonLib)
    (client : Client) (calls : List Call) (transport : ClientTransport)
    (hne : calls ≠ [])
    (henc : ∀ call ∈ calls, ∀ v, call.option = some v → ∃ raw, jsonMarshal J v = .ok raw) :
    ∃ batch, ((client.ExecuteAll J calls).execute oor J transport).sent = [batch] ∧
      batch.map (fun r => (r.Method, r.Params)) =
        client.executeArray.map (fun u => (u.method, u.option)) ++
          calls.map (fun call => (call.method, call.params J)) ∧
      ((client.ExecuteAll J calls).execute oor J transport).client.executeArray = [] ∧
      ∀ transport' : ClientTransport,
        (((client.ExecuteAll J calls).execute oor J transport).client.execute oor J
          transport').sent = [] := by
  have hq := Client.ExecuteAll_queue J client calls henc
  have hsent := Client.execute_sent oor J (client.ExecuteAll J calls) transport
  have hnonempty : (client.ExecuteAll J calls).executeArray ≠ [] := by
    intro h
    rw [h] at hq
    have hlen := congrArg List.length hq
    simp at hlen
    exact hne (List.length_eq_zero.1 (by omega))
  refine ⟨(client.ExecuteAll J calls).batch, ?_, ?_, hsent.2, ?_⟩
  · rw [hsent.1, if_neg hnonempty]
  · rw [← hq, Client.batch_eq, List.map_map]
    apply List.map_congr_left
    intro u _
    exact requestUnitOf_fields u
  · intro transport'
    rw [(Client.execute_sent oor J _ transport').1, if_pos hsent.2]

theorem NewClient_WF : NewClient.WF := by decide

theorem Client.execute_WF (oor : Float64 → Int) (J : JsonLib) (client : Client)
    (transport : ClientTransport) (hwf : client.WF) :
    (client.execute oor J transport).client.WF := by
  have h := (Client.execute_sent oor J client transport).2
  have hidx : (client.execute oor J transport).client.executeIndex = client.executeIndex := by
    unfold Client.execute
    split
    · rfl
    · dsimp only
      split <;> rfl
  refine ⟨by rw [hidx]; exact hwf.1, by rw [hidx]; exact hwf.2.1, ?_, ?_⟩
  · rw [h]; simp
  · rw [h]; simp

theorem Client.Execute_WF (J : JsonLib) (client : Client) (withIndex : Bool) (method : String)
    (option : Option GoValue) (hwf : client.WF) (hbound : client.executeIndex < 2 ^ 63 - 1) :
    (client.Execute J withIndex method option).1.WF := by
  obtain ⟨h0, h1, hunits, hnodup⟩ := hwf
  have hw : wrapInt64 (client.executeIndex + 1) = client.executeIndex + 1 :=
    wrapInt64_of_range _ (by omega) (by omega)
  have hwn : wrapInt64 (-(client.executeIndex + 1)) = -(client.executeIndex + 1) :=
    wrapInt64_of_range _ (by omega) (by omega)
  have hold : ∀ u ∈ client.executeArray, u.executeMutex = some 0 ∧ u.result = none ∧
      u.error = none ∧ 1 ≤ u.index.natAbs ∧ (u.index.natAbs : Int) ≤ client.executeIndex + 1 := by
    intro u hu
    obtain ⟨a, b, c, d, e⟩ := hunits u hu
    exact ⟨a, b, c, d, by omega⟩
  have hkeep : (⟨client.executeIndex + 1, client.executeArray⟩ : Client).WF :=
    ⟨by show (0 : Int) ≤ client.executeIndex + 1; omega,
     by show client.executeIndex + 1 < 2 ^ 63; omega, hold, hnodup⟩
  have hadd : ∀ u : clientExecuteUnit, u.executeMutex = some 0 → u.result = none →
      u.error = none → (u.index.natAbs : Int) = client.executeIndex + 1 →
      (⟨client.executeIndex + 1, client.executeArray ++ [u]⟩ : Client).WF := by
    intro u hm hr he hi
    refine ⟨by show (0 : Int) ≤ client.executeIndex + 1; omega,
      by show client.executeIndex + 1 < 2 ^ 63; omega, ?_, ?_⟩
    · intro v hv
      rcases List.mem_append.1 hv with hv | hv
      · exact hold v hv
      · simp only [List.mem_singleton] at hv
        subst hv
        exact ⟨hm, hr, he, by omega, le_of_eq hi⟩
    · show ((client.executeArray ++ [u]).map (fun u => u.index.natAbs)).Nodup
      rw [List.map_append, List.nodup_append]
      refine ⟨hnodup, by simp, ?_⟩
      intro a ha hb
      simp only [List.map_cons, List.map_nil, List.mem_singleton] at hb
      obtain ⟨v, hv, hva⟩ := List.mem_map.1 ha
      have := (hunits v hv).2.2.2.2
      omega
  have hindex : (Int.natAbs (if withIndex then client.executeIndex + 1
      else -(client.executeIndex + 1)) : Int) = client.executeIndex + 1 := by
    split <;> omega
  unfold Client.Execute
  simp only [hw, hwn]
  cases option with
  | none => exact hadd _ rfl rfl rfl hindex
  | some v =>
    dsimp only
    cases jsonMarshal J v with
    | error e => exact hkeep
    | ok raw => exact hadd _ rfl rfl rfl hindex

theorem Client.Reachable_WF (oor : Float64 → Int) (J : JsonLib) (client : Client)
    (h : Client.Reachable oor J client) : client.WF := by
  induction h with
  | new => exact NewClient_WF
  | enqueue c w m o _ hb ih => exact Client.Execute_WF J c w m o ih hb
  | dispatch c t _ ih => exact Client.execute_WF oor J c t ih

/-- C1, as stated, fails for the empty sequence of calls: with nothing
enqueued, a run of `Client.execute` does not invoke the transport. -/
theorem Client_execute_empty_queue_sends_nothing :
    (NewClient.ExecuteAll demoJson []).executeArray = [] ∧
    ((NewClient.ExecuteAll demoJson []).execute oorAmd64 demoJson silentTransport).sent = [] := by
  decide

theorem Client_execute_sends_each_call_once_witness :
    (twoCalls ≠ [] ∧
      ∀ call ∈ twoCalls, ∀ v, call.option = some v → ∃ raw, jsonMarshal demoJson v = .ok raw) ∧
    ∃ batch,
      ((NewClient.ExecuteAll demoJson twoCalls).execute oorAmd64 demoJson silentTransport).sent =
        [batch] ∧
      batch.map (fun r => (r.Method, r.Params)) =
        NewClient.executeArray.map (fun u => (u.method, u.option)) ++
          twoCalls.map (fun call => (call.method, call.params demoJson)) ∧
      ((NewClient.ExecuteAll demoJson twoCalls).execute oorAmd64 demoJson
        silentTransport).client.executeArray = [] ∧
      ∀ transport' : ClientTransport,
        (((NewClient.ExecuteAll demoJson twoCalls).execute oorAmd64 demoJson
          silentTransport).client.execute oorAmd64 demoJson transport').sent = [] := by
  have henc : ∀ call ∈ twoCalls, ∀ v, call.option = some v →
      ∃ raw, jsonMarshal demoJson v = .ok raw := by
    intro call hcall v hv
    simp only [twoCalls, List.mem_cons, List.mem_singleton, List.not_mem_nil, or_false] at hcall
    rcases hcall with h | h <;> subst h <;> simp at hv
    subst hv
    exact ⟨_, rfl⟩
  exact ⟨⟨by decide, henc⟩,
    Client_execute_sends_each_call_once oorAmd64 demoJson NewClient twoCalls silentTransport
      (by decide) henc⟩

theorem Client_execute_transport_failure_witness :
    ((NewClient.ExecuteAll demoJson twoCalls).WF ∧
      brokenTransport (NewClient.ExecuteAll demoJson twoCalls).batch = .error "connection refused") ∧
    ∃ u', ((NewClient.ExecuteAll demoJson twoCalls).execute oorAmd64 demoJson
        brokenTransport).units[0]? = some u' ∧
      u'.index = 1 ∧ u'.result = none ∧
      u'.error = some { Code := -32603, Message := "Internal error",
                        Data := some "\"connection refused\"" } ∧
      u'.Response demoJson none =
        some (none, some { Code := -32603, Message := "Internal error",
                           Data := some "\"connection refused\"" }) :=
  ⟨⟨by decide, rfl⟩,
    Client_execute_transport_failure oorAmd64 demoJson (NewClient.ExecuteAll demoJson twoCalls)
      brokenTransport "connection refused" (by decide) rfl 0
      { executeMutex := some 0, index := 1, method := "a", option := some "\"x\"",
        result := none, error := none } (by decide) none⟩

/-- C3, as stated, fails: the call with id 1 is sent, the returned batch has a
single unit, whose id 1.5 is not the id of the call, and the call is completed
with the result of that unit and no error. -/
theorem Client_execute_fractional_id_attributed :
    ((oneCall.execute oorAmd64 demoJson halfTransport).sent =
      [[{ JsonRPC := "2.0", ID := .int64 1, Method := "m", Params := none }]]) ∧
    halfTransport oneCall.batch =
      .ok [{ JsonRPC := "2.0", ID := .float64 (.finite oneAndHalf), Result := some "7",
             Error := none }] ∧
    ID.float64 (.finite oneAndHalf) ≠ ID.int64 1 ∧
    ID.float64 (.finite oneAndHalf) ≠ ID.float64 (.finite 1) ∧
    (oneCall.execute oorAmd64 demoJson halfTransport).units =
      [{ executeMutex := some 1, index := 1, method := "m", option := none,
         result := some "7", error := none }] := by
  decide

theorem Client_execute_unanswered_call_witness :
    ((NewClient.ExecuteAll demoJson twoCalls).WF ∧
      secondOnlyTransport (NewClient.ExecuteAll demoJson twoCalls).batch =
        .ok [{ JsonRPC := "2.0", ID := .float64 (.finite 2), Result := some "7", Error := none }] ∧
      convertsTo oorAmd64
        { JsonRPC := "2.0", ID := .float64 (.finite 2), Result := some "7", Error := none } 1 =
        false) ∧
    ∃ u', ((NewClient.ExecuteAll demoJson twoCalls).execute oorAmd64 demoJson
        secondOnlyTransport).units[0]? = some u' ∧
      u'.index = 1 ∧ u'.result = none ∧
      u'.error = some { Code := -32603, Message := "Internal error", Data := none } ∧
      u'.Response demoJson none =
        some (none, some { Code := -32603, Message := "Internal error", Data := none }) :=
  ⟨⟨by decide, rfl, by decide⟩,
    Client_execute_unanswered_call oorAmd64 demoJson (NewClient.ExecuteAll demoJson twoCalls)
      secondOnlyTransport
      [{ JsonRPC := "2.0", ID := .float64 (.finite 2), Result := some "7", Error := none }]
      (by decide) rfl 0
      { executeMutex := some 0, index := 1, method := "a", option := some "\"x\"",
        result := none, error := none } (by decide) (by decide) (by decide) none⟩

/-! ## Batches on the wire: claims -/

/-- The batch that the client builds for `twoCalls` is written as an array of
two objects with the ids 1 and 2, and read back with `float64` ids. -/
theorem RequestSlice_client_batch_read_back :
    RequestSlice.MarshalJSON demoWire twoRequests =
      .ok (.array [{ jsonrpc := some (.string "2.0"), id := some (.integer 1),
                     method := some (.string "a"), params := some "\"x\"" },
                   { jsonrpc := some (.string "2.0"), id := some (.integer 2),
                     method := some (.string "b"), params := none }]) ∧
    RequestSlice.UnmarshalJSON
        (.array [{ jsonrpc := some (.string "2.0"), id := some (.integer 1),
                   method := some (.string "a"), params := some "\"x\"" },
                 { jsonrpc := some (.string "2.0"), id := some (.integer 2),
                   method := some (.string "b"), params := none }]) =
      .ok twoRequestsDecoded ∧
    twoRequestsDecoded ≠ twoRequests := by
  decide

/-- A unit with an empty, non-nil `Params` is written without the member and
read back with a nil `Params`. -/
theorem RequestSlice_empty_params_not_restored :
    RequestSlice.MarshalJSON demoWire [emptyParamsRequest] =
      .ok (.object { jsonrpc := some (.string "2.0"), id := some (.integer 1),
                     method := some (.string "a"), params := none }) ∧
    RequestSlice.UnmarshalJSON
        (.object { jsonrpc := some (.string "2.0"), id := some (.integer 1),
                   method := some (.string "a"), params := none }) =
      .ok [{ JsonRPC := "2.0", ID := .float64 (.finite 1), Method := "a", Params := none }] ∧
    RequestSlice.UnmarshalJSON
        (.object { jsonrpc := some (.string "2.0"), id := some (.integer 1),
                   method := some (.string "a"), params := none }) ≠
      .ok [emptyParamsRequest] := by
  decide

/-- A unit whose `Params` holds white space is written with the compacted text
and read back with it. -/
theorem RequestSlice_spaced_params_not_restored :
    RequestSlice.MarshalJSON demoWire [spacedParamsRequest] =
      .ok (.object { jsonrpc := some (.string "2.0"), id := some (.integer 1),
                     method := some (.string "a"), params := some "[1,2]" }) ∧
    RequestSlice.UnmarshalJSON
        (.object { jsonrpc := some (.string "2.0"), id := some (.integer 1),
                   method := some (.string "a"), params := some "[1,2]" }) =
      .ok [{ JsonRPC := "2.0", ID := .float64 (.finite 1), Method := "a",
             Params := some "[1,2]" }] ∧
    RequestSlice.UnmarshalJSON
        (.object { jsonrpc := some (.string "2.0"), id := some (.integer 1),
                   method := some (.string "a"), params := some "[1,2]" }) ≠
      .ok [spacedParamsRequest] := by
  decide

/-- A batch with an id that is not a number (`NaN`) is not encoded, whatever
its length. -/
theorem RequestSlice_nan_id_not_encoded (L : JsonWire) (u : RequestUnit)
    (post : RequestSlice) (h : u.ID = .float64 .nan) :
    ∃ e, RequestSlice.MarshalJSON L (u :: post) = .error e := by
  have hu : marshalRequestUnit L u = .error "json: unsupported value" := by
    simp [marshalRequestUnit, h, marshalID]
  unfold RequestSlice.MarshalJSON
  split
  · exact ⟨"json: unsupported value", by simp [jsonMarshalUnit, hu]⟩
  · exact ⟨"json: unsupported value", by simp [jsonMarshalArray, eachOrError, hu]⟩

theorem mapGet_of_unique (m : ExecuteMap) (k : Int) (p : Nat) (hmem : (k, p) ∈ m)
    (huniq : ∀ e ∈ m, e.1 = k → e.2 = p) : mapGet m k = some p := by
  induction m with
  | nil => simp at hmem
  | cons e m ih =>
    obtain ⟨k', q⟩ := e
    simp only [mapGet]
    by_cases hk : k' = k
    · have hq : q = p := huniq (k', q) (List.mem_cons_self _ _) hk
      simp [hk, hq]
    · simp only [hk, if_false]
      apply ih
      · rcases List.mem_cons.1 hmem with h | h
        · exact absurd (congrArg Prod.fst h).symm hk
        · exact h
      · intro e he
        exact huniq e (List.mem_cons_of_mem _ he)

theorem entriesFrom_mem (units : List clientExecuteUnit) (p : Nat) (e : Int × Nat)
    (he : e ∈ entriesFrom units p) :
    ∃ i u, units[i]? = some u ∧ e = (u.index, p + i) := by
  induction units generalizing p with
  | nil => simp [entriesFrom] at he
  | cons v rest ih =>
    simp only [entriesFrom, List.mem_cons] at he
    rcases he with he | he
    · exact ⟨0, v, by simp, by simp [he]⟩
    · obtain ⟨i, u, hu, heq⟩ := ih (p + 1) he
      refine ⟨i + 1, u, by simpa using hu, ?_⟩
      rw [heq]
      congr 1
      omega

theorem Client.WF_unique (client : Client) (hwf : client.WF) (p : Nat) (u : clientExecuteUnit)
    (hu : client.executeArray[p]? = some u) :
    ∀ e ∈ (snapshot client.executeArray 0 [] []).1, e.1 = u.index → e.2 = p := by
  rw [Client.WF_snapshot client hwf]
  intro e he hk
  obtain ⟨i, v, hv, heq⟩ := entriesFrom_mem _ _ _ he
  subst heq
  simp only [Nat.zero_add] at hk ⊢
  have hnodup := Client.WF_nodup client hwf
  have h1 : (client.executeArray.map (fun u => u.index))[i]? = some v.index := by
    simp [hv]
  have h2 : (client.executeArray.map (fun u => u.index))[p]? = some u.index := by
    simp [hu]
  rw [← hk] at h2
  obtain ⟨hi, hi'⟩ := List.getElem?_eq_some.1 h1
  obtain ⟨hp, hp'⟩ := List.getElem?_eq_some.1 h2
  exact (List.Nodup.getElem_inj_iff hnodup).1 (hi'.trans hp'.symm)

theorem demuxStep_done (oor : Float64 → Int) (st : Demux) (r : ResponseUnit) (p : Nat)
    (v : clientExecuteUnit)
    (hmap : st.executeMap.filter (fun e => e.2 = p) = [])
    (hunit : st.units[p]? = some v) :
    (demuxStep oor st r).executeMap.filter (fun e => e.2 = p) = [] ∧
    (demuxStep oor st r).units[p]? = some v := by
  unfold demuxStep
  by_cases hnull : r.ID = ID.null
  · simp only [hnull, ne_eq, not_true_eq_false, if_false]
    exact ⟨hmap, hunit⟩
  · simp only [hnull, ne_eq, not_false_eq_true, if_true]
    generalize (match r.ID with
        | .float64 executeIndexFloat => int64OfFloat64 oor executeIndexFloat
        | _ => st.executeIndex) = ex
    cases hget : mapGet st.executeMap ex with
    | none => exact ⟨hmap, hunit⟩
    | some q =>
      have hmem := mapGet_mem _ _ _ hget
      have hq : q ≠ p := by
        intro hqp
        subst hqp
        have : (ex, q) ∈ st.executeMap.filter (fun e => e.2 = q) := by
          simp [List.mem_filter, hmem]
        rw [hmap] at this
        simp at this
      refine ⟨?_, ?_⟩
      · simp only [mapDelete]
        rw [List.filter_eq_nil_iff] at hmap ⊢
        intro e he
        exact hmap e (List.mem_filter.1 he).1
      · simp only [modifyAt_getElem?, hq, if_false, hunit]

theorem demux_done (oor : Float64 → Int) (responseSlice : ResponseSlice) (st : Demux) (p : Nat)
    (v : clientExecuteUnit)
    (hmap : st.executeMap.filter (fun e => e.2 = p) = [])
    (hunit : st.units[p]? = some v) :
    (responseSlice.foldl (demuxStep oor) st).executeMap.filter (fun e => e.2 = p) = [] ∧
    (responseSlice.foldl (demuxStep oor) st).units[p]? = some v := by
  induction responseSlice generalizing st with
  | nil => exact ⟨hmap, hunit⟩
  | cons r rest ih =>
    obtain ⟨h1, h2⟩ := demuxStep_done oor st r p v hmap hunit
    exact ih _ h1 h2

theorem demuxStep_hit (oor : Float64 → Int) (st : Demux) (r : ResponseUnit) (k : Int)
    (p : Nat) (u : clientExecuteUnit)
    (hr : convertsTo oor r k = true)
    (hmap : st.executeMap.filter (fun e => e.2 = p) = [(k, p)])
    (huniq : ∀ e ∈ st.executeMap, e.1 = k → e.2 = p)
    (hunit : st.units[p]? = some u) :
    (demuxStep oor st r).executeMap.filter (fun e => e.2 = p) = [] ∧
    (demuxStep oor st r).units[p]? =
      some (signal { u with result := r.Result, error := r.Error }) := by
  have hmem : (k, p) ∈ st.executeMap := by
    have : (k, p) ∈ st.executeMap.filter (fun e => e.2 = p) := by simp [hmap]
    exact (List.mem_filter.1 this).1
  have hget := mapGet_of_unique st.executeMap k p hmem huniq
  unfold convertsTo at hr
  unfold demuxStep
  cases hid : r.ID with
  | float64 f =>
    rw [hid] at hr
    have hk : int64OfFloat64 oor f = k := by simpa using hr
    simp only [ne_eq, reduceCtorEq, not_false_eq_true, if_true, hk, hget]
    refine ⟨?_, ?_⟩
    · simp only [mapDelete]
      rw [List.filter_filter, List.filter_eq_nil_iff]
      intro e he
      simp only [Bool.and_eq_true, decide_eq_true_eq, not_and]
      intro hp hne
      have : e ∈ st.executeMap.filter (fun e => e.2 = p) := by
        simp [List.mem_filter, he, hp]
      rw [hmap] at this
      simp only [List.mem_singleton] at this
      rw [this] at hne
      exact hne rfl
    · simp [modifyAt_getElem?, hunit]
  | null => rw [hid] at hr; simp at hr
  | bool b => rw [hid] at hr; simp at hr
  | int64 n => rw [hid] at hr; simp at hr
  | string s => rw [hid] at hr; simp at hr
  | other t => rw [hid] at hr; simp at hr

theorem demuxStep_unique (oor : Float64 → Int) (st : Demux) (r : ResponseUnit) (k : Int)
    (p : Nat) (huniq : ∀ e ∈ st.executeMap, e.1 = k → e.2 = p) :
    ∀ e ∈ (demuxStep oor st r).executeMap, e.1 = k → e.2 = p := by
  unfold demuxStep
  split
  · dsimp only
    split
    · intro e he
      exact huniq e (List.mem_filter.1 he).1
    · exact huniq
  · exact huniq

theorem demux_spec (oor : Float64 → Int) (J : JsonLib) (responseSlice : ResponseSlice)
    (st : Demux) (p : Nat) (u : clientExecuteUnit)
    (hidx : st.executeIndex ≠ u.index)
    (hmap : st.executeMap.filter (fun e => e.2 = p) = [(u.index, p)])
    (huniq : ∀ e ∈ st.executeMap, e.1 = u.index → e.2 = p)
    (hunit : st.units[p]? = some u) :
    (completeRest J (responseSlice.foldl (demuxStep oor) st).executeMap
      (responseSlice.foldl (demuxStep oor) st).units)[p]? =
      some (completedUnit oor J responseSlice u) := by
  induction responseSlice generalizing st with
  | nil =>
    unfold completeRest
    rw [List.foldl_nil, foldl_modifyAt_once _ _ _ p _ u hmap hunit]
    simp [completedUnit]
  | cons r rest ih =>
    rw [List.foldl_cons]
    cases hr : convertsTo oor r u.index with
    | false =>
      obtain ⟨h1, h2, h3⟩ := demuxStep_keeps oor st r u.index p u hr hidx hmap hunit
      rw [ih _ h1 h2 (demuxStep_unique oor st r u.index p huniq) h3]
      simp [completedUnit, List.find?_cons, hr]
    | true =>
      obtain ⟨h1, h2⟩ := demuxStep_hit oor st r u.index p u hr hmap huniq hunit
      obtain ⟨h3, h4⟩ := demux_done oor rest _ p _ h1 h2
      unfold completeRest
      rw [foldl_modifyAt_getElem?, h3, h4]
      simp [completedUnit, List.find?_cons, hr]

theorem Client.execute_units_spec (oor : Float64 → Int) (J : JsonLib) (client : Client)
    (transport : ClientTransport) (responseSlice : ResponseSlice)
    (hwf : client.WF) (hok : transport client.batch = .ok responseSlice)
    (p : Nat) (u : clientExecuteUnit) (hu : client.executeArray[p]? = some u) :
    (client.execute oor J transport).units[p]? =
      some (completedUnit oor J responseSlice u) := by
  have hne : client.executeArray ≠ [] := by
    intro h
    simp [h] at hu
  have hmem : u ∈ client.executeArray := List.getElem?_mem hu
  obtain ⟨-, -, -, hpos, -⟩ := hwf.2.2.1 u hmem
  have hzero : (0 : Int) ≠ u.index := by
    intro h
    rw [← h] at hpos
    simp at hpos
  rw [Client.execute_success_units oor J client transport responseSlice hne hok]
  exact demux_spec oor J responseSlice _ p u hzero (Client.WF_entry client hwf p u hu)
    (Client.WF_unique client hwf p u hu) hu

/-! ## The client engine: further claims -/

theorem modifyAt_length {α : Type} (f : α → α) (xs : List α) (p : Nat) :
    (modifyAt f xs p).length = xs.length := by
  induction xs generalizing p with
  | nil => simp [modifyAt]
  | cons x xs ih =>
    cases p with
    | zero => simp [modifyAt]
    | succ p => simp [modifyAt, ih]

theorem foldl_modifyAt_length (f : clientExecuteUnit → clientExecuteUnit) (m : ExecuteMap)
    (units : List clientExecuteUnit) :
    (m.foldl (fun units entry => modifyAt f units entry.2) units).length = units.length := by
  induction m generalizing units with
  | nil => simp
  | cons e m ih => rw [List.foldl_cons, ih, modifyAt_length]

theorem demux_length (oor : Float64 → Int) (responseSlice : ResponseSlice) (st : Demux) :
    (responseSlice.foldl (demuxStep oor) st).units.length = st.units.length := by
  induction responseSlice generalizing st with
  | nil => simp
  | cons r rest ih =>
    rw [List.foldl_cons, ih]
    unfold demuxStep
    split
    · dsimp only
      split
      · simp [modifyAt_length]
      · rfl
    · rfl

theorem Client.execute_units_map (oor : Float64 → Int) (J : JsonLib) (client : Client)
    (transport : ClientTransport) (responseSlice : ResponseSlice)
    (hwf : client.WF) (hok : transport client.batch = .ok responseSlice) :
    (client.execute oor J transport).units =
      client.executeArray.map (completedUnit oor J responseSlice) := by
  by_cases hne : client.executeArray = []
  · simp [Client.execute, hne]
  · apply List.ext_getElem?
    intro p
    cases hu : client.executeArray[p]? with
    | some u =>
      rw [Client.execute_units_spec oor J client transport responseSlice hwf hok p u hu]
      simp [hu]
    | none =>
      have hlen : (client.execute oor J transport).units.length = client.executeArray.length := by
        rw [Client.execute_success_units oor J client transport responseSlice hne hok]
        unfold completeRest
        rw [foldl_modifyAt_length, demux_length]
      have hp : client.executeArray.length ≤ p := by
        simpa [List.getElem?_eq_none_iff] using hu
      rw [List.getElem?_eq_none (by omega), List.getElem?_eq_none (by simpa using hp)]

theorem Client.execute_failure_spec (oor : Float64 → Int) (J : JsonLib) (client : Client)
    (transport : ClientTransport) (err : String)
    (hwf : client.WF) (hfail : transport client.batch = .error err)
    (p : Nat) (u : clientExecuteUnit) (hu : client.executeArray[p]? = some u) :
    (client.execute oor J transport).units[p]? =
      some (signal { u with error := some (NewErrorInternalError J (some (.string err))) }) := by
  have hne : client.executeArray ≠ [] := by
    intro h
    simp [h] at hu
  rw [Client.execute_failure_units oor J client transport err hne hfail]
  unfold failAll
  rw [foldl_modifyAt_once _ _ _ p _ u (Client.WF_entry client hwf p u hu) hu]

theorem completedUnit_skip (oor : Float64 → Int) (J : JsonLib) (pre post : ResponseSlice)
    (r : ResponseUnit) (u : clientExecuteUnit) (h : convertsTo oor r u.index = false) :
    completedUnit oor J (pre ++ r :: post) u = completedUnit oor J (pre ++ post) u := by
  unfold completedUnit
  simp [List.find?_append, List.find?_cons, h]

/-- C11, as stated, fails: the call with id 1 is answered by a unit with id 1
that has neither result nor error; the call is completed, and `Response` with
a non-nil target returns, decodes nothing and returns a nil error. -/
theorem Client_Response_nothing_returned :
    emptyReplyTransport oneCall.batch =
      .ok [{ JsonRPC := "2.0", ID := .float64 (.finite 1), Result := none, Error := none }] ∧
    (oneCall.execute oorAmd64 demoJson emptyReplyTransport).units =
      [{ executeMutex := some 1, index := 1, method := "m", option := none,
         result := none, error := none }] ∧
    (oneCall.execute oorAmd64 demoJson emptyReplyTransport).units.map
        (fun u => u.Response demoJson (some stringTarget)) =
      [some (none, none)] := by
  decide

/-- C11, amended: for every call of a dispatch cycle (of a client in a state
satisfying `Client.WF`) that expects a response, when every returned response
unit has a result or an error, and for every non-nil target, `Response` on
the completed call returns and either decodes a stored result into the target
or returns a non-nil `*Error`. -/
theorem Client_Response_result_or_error (oor : Float64 → Int) (J : JsonLib)
    (client : Client) (transport : ClientTransport) (hwf : client.WF)
    (hcarry : ∀ rs, transport client.batch = .ok rs →
      ∀ r ∈ rs, r.Result ≠ none ∨ r.Error ≠ none)
    (p : Nat) (u : clientExecuteUnit) (hu : client.executeArray[p]? = some u)
    (hresp : 0 ≤ u.index) (target : ReflectType) :
    ∃ u' decoded err, (client.execute oor J transport).units[p]? = some u' ∧
      u'.Response J (some target) = some (decoded, err) ∧
      (decoded ≠ none ∨ err ≠ none) := by
  have hmem : u ∈ client.executeArray := List.getElem?_mem hu
  obtain ⟨hmutex, hresult, -, -, -⟩ := hwf.2.2.1 u hmem
  cases ht : transport client.batch with
  | error e =>
    refine ⟨_, none, some (NewErrorInternalError J (some (.string e))),
      Client.execute_failure_spec oor J client transport e hwf ht p u hu, ?_, Or.inr (by simp)⟩
    simp [clientExecuteUnit.Response, clientExecuteUnit.Wait, signal, hmutex, hresult]
  | ok rs =>
    have hspec := Client.execute_units_spec oor J client transport rs hwf ht p u hu
    cases hfind : rs.find? (fun r => convertsTo oor r u.index) with
    | none =>
      refine ⟨_, none, some (NewErrorInternalError J none), hspec, ?_, Or.inr (by simp)⟩
      simp [completedUnit, hfind, hresp, clientExecuteUnit.Response, clientExecuteUnit.Wait,
        signal, hmutex, hresult]
    | some r =>
      have hr := hcarry rs ht r (List.mem_of_find?_eq_some hfind)
      have hunit : completedUnit oor J rs u =
          { u with executeMutex := some 1, result := r.Result, error := r.Error } := by
        simp [completedUnit, hfind, signal, hmutex]
      rw [hunit] at hspec
      cases hres : r.Result with
      | none =>
        have herr : r.Error ≠ none := by
          rcases hr with h | h
          · exact absurd hres h
          · exact h
        refine ⟨_, none, r.Error, hspec, ?_, Or.inr herr⟩
        simp [clientExecuteUnit.Response, clientExecuteUnit.Wait, hres]
      | some raw =>
        cases hdec : target.decode raw with
        | ok v =>
          refine ⟨_, some v, r.Error, hspec, ?_, Or.inl (by simp)⟩
          simp [clientExecuteUnit.Response, clientExecuteUnit.Wait, hres, hdec]
        | error e =>
          refine ⟨_, none, some (NewErrorParseError J (some (.string e))), hspec, ?_,
            Or.inr (by simp)⟩
          simp [clientExecuteUnit.Response, clientExecuteUnit.Wait, hres, hdec]

theorem Client_Response_result_or_error_witness :
    ((NewClient.ExecuteAll demoJson twoCalls).WF ∧
      (∀ rs, secondOnlyTransport (NewClient.ExecuteAll demoJson twoCalls).batch = .ok rs →
        ∀ r ∈ rs, r.Result ≠ none ∨ r.Error ≠ none)) ∧
    ∃ u' decoded err,
      ((NewClient.ExecuteAll demoJson twoCalls).execute oorAmd64 demoJson
        secondOnlyTransport).units[1]? = some u' ∧
      u'.Response demoJson (some stringTarget) = some (decoded, err) ∧
      (decoded ≠ none ∨ err ≠ none) := by
  have hcarry : ∀ rs, secondOnlyTransport (NewClient.ExecuteAll demoJson twoCalls).batch =
      .ok rs → ∀ r ∈ rs, r.Result ≠ none ∨ r.Error ≠ none := by
    intro rs hrs r hr
    simp only [secondOnlyTransport, Except.ok.injEq] at hrs
    subst hrs
    simp only [List.mem_singleton] at hr
    subst hr
    exact Or.inl (by simp)
  exact ⟨⟨by decide, hcarry⟩,
    Client_Response_result_or_error oorAmd64 demoJson (NewClient.ExecuteAll demoJson twoCalls)
      secondOnlyTransport (by decide) hcarry 1
      { executeMutex := some 0, index := 2, method := "b", option := none,
        result := none, error := none } (by decide) (by decide) stringTarget⟩

/-- C18, as stated, fails: after a request (index 1) and a notification
(index -2), a returned response unit with id -2 is attributed to the
notification, which ends with the result of that unit. -/
theorem Client_execute_negative_id_attributed :
    ((NewClient.ExecuteAll demoJson requestAndNotification).execute oorAmd64 demoJson
        minusTwoTransport).sent =
      [[{ JsonRPC := "2.0", ID := .int64 1, Method := "a", Params := none },
        { JsonRPC := "2.0", ID := .null, Method := "n", Params := none }]] ∧
    ((NewClient.ExecuteAll demoJson requestAndNotification).execute oorAmd64 demoJson
        minusTwoTransport).units =
      [{ executeMutex := some 1, index := 1, method := "a", option := none, result := none,
         error := some { Code := -32603, Message := "Internal error", Data := none } },
       { executeMutex := some 1, index := -2, method := "n", option := none,
         result := some "7", error := none }] := by
  decide

/-- C18, amended: in every dispatch cycle (of a client in a state satisfying
`Client.WF`) whose transport call succeeds, every notification unit of the
batch to whose index no returned response unit has an id converting is
completed, with one signal, no stored error and no stored result. -/
theorem Client_execute_notification_completed (oor : Float64 → Int) (J : JsonLib)
    (client : Client) (transport : ClientTransport) (responseSlice : ResponseSlice)
    (hwf : client.WF) (hok : transport client.batch = .ok responseSlice)
    (p : Nat) (u : clientExecuteUnit) (hu : client.executeArray[p]? = some u)
    (hneg : u.index < 0)
    (hnone : ∀ r ∈ responseSlice, convertsTo oor r u.index = false) :
    ∃ u', (client.execute oor J transport).units[p]? = some u' ∧
      u'.index = u.index ∧ u'.error = none ∧ u'.result = none ∧
      u'.executeMutex = some 1 := by
  have hmem : u ∈ client.executeArray := List.getElem?_mem hu
  obtain ⟨hmutex, hresult, herror, -, -⟩ := hwf.2.2.1 u hmem
  have hfind : responseSlice.find? (fun r => convertsTo oor r u.index) = none := by
    rw [List.find?_eq_none]
    intro r hr
    simp [hnone r hr]
  have hnot : ¬ u.index ≥ 0 := by omega
  refine ⟨_, Client.execute_units_spec oor J client transport responseSlice hwf hok p u hu,
    ?_, ?_, ?_, ?_⟩ <;>
  simp [completedUnit, hfind, hnot, signal, hmutex, hresult, herror]

theorem Client_execute_notification_completed_witness :
    ((NewClient.ExecuteAll demoJson requestAndNotification).WF ∧
      secondOnlyTransport (NewClient.ExecuteAll demoJson requestAndNotification).batch =
        .ok [secondResponse] ∧
      (-2 : Int) < 0 ∧
      ∀ r ∈ [secondResponse], convertsTo oorAmd64 r (-2) = false) ∧
    ∃ u', ((NewClient.ExecuteAll demoJson requestAndNotification).execute oorAmd64 demoJson
        secondOnlyTransport).units[1]? = some u' ∧
      u'.index = -2 ∧ u'.error = none ∧ u'.result = none ∧ u'.executeMutex = some 1 :=
  ⟨⟨by decide, rfl, by decide, by decide⟩,
    Client_execute_notification_completed oorAmd64 demoJson
      (NewClient.ExecuteAll demoJson requestAndNotification) secondOnlyTransport
      [secondResponse] (by decide) rfl 1
      { executeMutex := some 0, index := -2, method := "n", option := none,
        result := none, error := none } (by decide) (by decide) (by decide)⟩

/-- C19, as stated, fails: a returned response unit with id 2.5 is attributed
to the call with index 2, which ends with the result of that unit. -/
theorem Client_execute_two_and_half_attributed :
    ((NewClient.ExecuteAll demoJson twoCalls).execute oorAmd64 demoJson
        twoAndHalfTransport).units =
      [{ executeMutex := some 1, index := 1, method := "a", option := some "\"x\"",
         result := none,
         error := some { Code := -32603, Message := "Internal error", Data := none } },
       { executeMutex := some 1, index := 2, method := "b", option := none,
         result := some "7", error := none }] := by
  decide

/-- C19, amended: during demultiplexing in `Client.execute` (for a client in a
state satisfying `Client.WF`) a numeric response id is converted with
`int64(...)`, which truncates toward zero; a returned response unit whose id
is a number, integer or not, is attributed to no call other than the one
whose index is the converted id: for every other call, the completed unit is
the same as when the response unit is left out of the returned batch. -/
theorem Client_execute_numeric_id_other_calls (oor : Float64 → Int) (J : JsonLib)
    (client : Client) (t1 t2 : ClientTransport) (pre post : ResponseSlice)
    (r : ResponseUnit) (f : Float64) (hwf : client.WF) (hid : r.ID = ID.float64 f)
    (h1 : t1 client.batch = .ok (pre ++ r :: post))
    (h2 : t2 client.batch = .ok (pre ++ post))
    (p : Nat) (u : clientExecuteUnit) (hu : client.executeArray[p]? = some u)
    (hother : u.index ≠ int64OfFloat64 oor f) :
    (client.execute oor J t1).units[p]? = (client.execute oor J t2).units[p]? := by
  rw [Client.execute_units_spec oor J client t1 _ hwf h1 p u hu,
    Client.execute_units_spec oor J client t2 _ hwf h2 p u hu]
  rw [completedUnit_skip]
  simp [convertsTo, hid, Ne.symm hother]

theorem Client_execute_numeric_id_other_calls_witness :
    ((NewClient.ExecuteAll demoJson twoCalls).WF ∧
      twoAndHalfTransport (NewClient.ExecuteAll demoJson twoCalls).batch =
        .ok ([] ++ [{ JsonRPC := "2.0", ID := .float64 (.finite twoAndHalf),
                      Result := some "7", Error := none }]) ∧
      silentTransport (NewClient.ExecuteAll demoJson twoCalls).batch = .ok ([] ++ []) ∧
      (1 : Int) ≠ int64OfFloat64 oorAmd64 (.finite twoAndHalf)) ∧
    ((NewClient.ExecuteAll demoJson twoCalls).execute oorAmd64 demoJson
        twoAndHalfTransport).units[0]? =
      ((NewClient.ExecuteAll demoJson twoCalls).execute oorAmd64 demoJson
        silentTransport).units[0]? :=
  ⟨⟨by decide, rfl, rfl, by decide⟩,
    Client_execute_numeric_id_other_calls oorAmd64 demoJson
      (NewClient.ExecuteAll demoJson twoCalls) twoAndHalfTransport silentTransport [] []
      { JsonRPC := "2.0", ID := .float64 (.finite twoAndHalf), Result := some "7",
        Error := none } (.finite twoAndHalf) (by decide) rfl rfl rfl 0
      { executeMutex := some 0, index := 1, method := "a", option := some "\"x\"",
        result := none, error := none } (by decide) (by decide)⟩

/-- C20: for every response batch returned by the transport (to a client in a
state satisfying `Client.WF`) and every response unit in it whose id is not a
`float64` number (a string, for example), whatever units come before and
after it, `Client.execute` attributes the unit to no call: every execution
unit ends exactly as it does when the unit is left out of the returned
batch. -/
theorem Client_execute_non_numeric_id_ignored (oor : Float64 → Int) (J : JsonLib)
    (client : Client) (t1 t2 : ClientTransport) (pre post : ResponseSlice)
    (r : ResponseUnit) (hwf : client.WF) (hid : ∀ f, r.ID ≠ ID.float64 f)
    (h1 : t1 client.batch = .ok (pre ++ r :: post))
    (h2 : t2 client.batch = .ok (pre ++ post)) :
    (client.execute oor J t1).units = (client.execute oor J t2).units := by
  rw [Client.execute_units_map oor J client t1 _ hwf h1,
    Client.execute_units_map oor J client t2 _ hwf h2]
  apply List.map_congr_left
  intro u _
  apply completedUnit_skip
  unfold convertsTo
  split
  · next f hf => exact absurd hf (hid f)
  · rfl

theorem Client_execute_non_numeric_id_ignored_witness :
    ((NewClient.ExecuteAll demoJson twoCalls).WF ∧ (∀ f, stringIdResponse.ID ≠ ID.float64 f)) ∧
    ((NewClient.ExecuteAll demoJson twoCalls).execute oorAmd64 demoJson
        (fun _ => .ok ([firstResponse] ++ stringIdResponse :: [secondResponse]))).units =
      ((NewClient.ExecuteAll demoJson twoCalls).execute oorAmd64 demoJson
        (fun _ => .ok ([firstResponse] ++ [secondResponse]))).units :=
  ⟨⟨by decide, fun f h => by simp [stringIdResponse] at h⟩,
    Client_execute_non_numeric_id_ignored oorAmd64 demoJson
      (NewClient.ExecuteAll demoJson twoCalls) _ _ [firstResponse] [secondResponse]
      stringIdResponse (by decide) (fun f h => by simp [stringIdResponse] at h) rfl rfl⟩

theorem Client.Execute_index (J : JsonLib) (client : Client) (withIndex : Bool)
    (method : String) (option : Option GoValue) :
    (client.Execute J withIndex method option).1.executeIndex =
      wrapInt64 (client.executeIndex + 1) := by
  unfold Client.Execute
  cases option with
  | none => rfl
  | some v =>
    dsimp only
    cases jsonMarshal J v <;> rfl

theorem Client.Execute_unit (J : JsonLib) (client : Client) (call : Call)
    (h0 : 0 ≤ client.executeIndex) (hbound : client.executeIndex < 2 ^ 63 - 1) :
    (Call.encodable J call = false ∧
      (client.Execute J call.withIndex call.method call.option).1.executeArray =
        client.executeArray) ∨
    (Call.encodable J call = true ∧
      ∃ u, (client.Execute J call.withIndex call.method call.option).1.executeArray =
          client.executeArray ++ [u] ∧
        (call.withIndex = true → 0 < u.index) ∧ (call.withIndex = false → u.index < 0) ∧
        u.method = call.method ∧ u.option = call.params J) := by
  have hw : wrapInt64 (client.executeIndex + 1) = client.executeIndex + 1 :=
    wrapInt64_of_range _ (by omega) (by omega)
  have hwn : wrapInt64 (-(client.executeIndex + 1)) = -(client.executeIndex + 1) :=
    wrapInt64_of_range _ (by omega) (by omega)
  unfold Client.Execute Call.encodable Call.params
  simp only [hw, hwn]
  cases hopt : call.option with
  | none =>
    right
    refine ⟨rfl, _, rfl, ?_, ?_, rfl, rfl⟩
    · intro h; simp only [h, if_true]; omega
    · intro h; simp [h]; omega
  | some v =>
    dsimp only
    cases hm : jsonMarshal J v with
    | error e => left; exact ⟨rfl, rfl⟩
    | ok raw =>
      right
      refine ⟨rfl, _, rfl, ?_, ?_, rfl, rfl⟩
      · intro h; simp only [h, if_true]; omega
      · intro h; simp [h]; omega

theorem Client.ExecuteAll_units (J : JsonLib) (client : Client) (calls : List Call)
    (hwf : client.WF) (hbound : client.executeIndex + calls.length < 2 ^ 63) :
    (client.ExecuteAll J calls).WF ∧
    ∃ added, (client.ExecuteAll J calls).executeArray = client.executeArray ++ added ∧
      List.Forall₂
        (fun u call => (call.withIndex = true → 0 < u.index) ∧
          (call.withIndex = false → u.index < 0) ∧
          u.method = call.method ∧ u.option = call.params J)
        added (calls.filter (Call.encodable J)) := by
  induction calls generalizing client with
  | nil => exact ⟨hwf, [], by simp [Client.ExecuteAll], by simp⟩
  | cons call rest ih =>
    have h0 := hwf.1
    have hlen : ((call :: rest).length : Int) = rest.length + 1 := by simp
    rw [hlen] at hbound
    have hb : client.executeIndex < 2 ^ 63 - 1 := by omega
    have hwf' := Client.Execute_WF J client call.withIndex call.method call.option hwf hb
    have hidx : (client.Execute J call.withIndex call.method call.option).1.executeIndex =
        client.executeIndex + 1 := by
      rw [Client.Execute_index]
      exact wrapInt64_of_range _ (by omega) (by omega)
    obtain ⟨hwf'', added, hq, hrel⟩ :=
      ih (client.Execute J call.withIndex call.method call.option).1 hwf'
        (by rw [hidx]; omega)
    have hall : (client.ExecuteAll J (call :: rest)) =
        (client.Execute J call.withIndex call.method call.option).1.ExecuteAll J rest := by
      simp [Client.ExecuteAll]
    rw [hall]
    refine ⟨hwf'', ?_⟩
    rcases Client.Execute_unit J client call h0 hb with ⟨henc, hsame⟩ | ⟨henc, u, hadd, hrest⟩
    · refine ⟨added, by rw [hq, hsame], ?_⟩
      simpa [List.filter_cons, henc] using hrel
    · refine ⟨u :: added, by rw [hq, hadd]; simp, ?_⟩
      simp only [List.filter_cons, henc, if_true]
      exact List.Forall₂.cons hrest hrel

/-- C17: for every sequence of fewer than `2^63` enqueue calls on a new client
followed by a dispatch cycle: the indices of the queued units are pairwise
distinct and non-zero; the queued units are, in order, those of the calls whose
params can be encoded, with a positive index exactly for a call that expects a
response and a negative one for a notification; in the outgoing batch the unit
of a call that expects a response carries the index of the call as its id and
the unit of a notification carries no id, so the ids of the batch are pairwise
distinct positive integers. -/
theorem Client_indices_and_ids (oor : Float64 → Int) (J : JsonLib) (calls : List Call)
    (transport : ClientTransport) (hlen : calls.length < 2 ^ 63) :
    ((NewClient.ExecuteAll J calls).executeArray.map (fun u => u.index)).Nodup ∧
    (∀ u ∈ (NewClient.ExecuteAll J calls).executeArray, u.index ≠ 0) ∧
    List.Forall₂
      (fun u call =>
        (call.withIndex = true → 0 < u.index ∧ (requestUnitOf u).ID = ID.int64 u.index) ∧
        (call.withIndex = false → u.index < 0 ∧ (requestUnitOf u).ID = ID.null))
      (NewClient.ExecuteAll J calls).executeArray (calls.filter (Call.encodable J)) ∧
    (∀ batch ∈ ((NewClient.ExecuteAll J calls).execute oor J transport).sent,
      batch = (NewClient.ExecuteAll J calls).executeArray.map requestUnitOf ∧
      batch.Pairwise (fun r s => r.ID = ID.null ∨ s.ID = ID.null ∨ r.ID ≠ s.ID) ∧
      ∀ r ∈ batch, r.ID = ID.null ∨ ∃ n : Int, 0 < n ∧ r.ID = ID.int64 n) := by
  have hb : NewClient.executeIndex + (calls.length : Int) < 2 ^ 63 := by
    show (0 : Int) + (calls.length : Int) < 2 ^ 63
    have : (calls.length : Int) < 2 ^ 63 := by exact_mod_cast hlen
    omega
  obtain ⟨hwf, added, hq, hrel⟩ := Client.ExecuteAll_units J NewClient calls NewClient_WF hb
  have hnodup := Client.WF_nodup _ hwf
  have hnonzero : ∀ u ∈ (NewClient.ExecuteAll J calls).executeArray, u.index ≠ 0 := by
    intro u hu h0
    have := (hwf.2.2.1 u hu).2.2.2.1
    rw [h0] at this
    simp at this
  have hadded : added = (NewClient.ExecuteAll J calls).executeArray := by
    rw [hq]; simp [NewClient]
  rw [hadded] at hrel
  refine ⟨hnodup, hnonzero, ?_, ?_⟩
  · refine List.Forall₂.imp ?_ hrel
    rintro u call ⟨h1, h2, -, -⟩
    refine ⟨fun h => ⟨h1 h, ?_⟩, fun h => ⟨h2 h, ?_⟩⟩
    · have := h1 h
      simp [requestUnitOf, Int.le_of_lt this]
    · have := h2 h
      have hn : ¬ (0 ≤ u.index) := by omega
      simp [requestUnitOf, hn]
  · intro batch hbatch
    have hsent := (Client.execute_sent oor J (NewClient.ExecuteAll J calls) transport).1
    rw [hsent] at hbatch
    have hbe : batch = (NewClient.ExecuteAll J calls).executeArray.map requestUnitOf := by
      split at hbatch
      · simp at hbatch
      · simp only [List.mem_singleton] at hbatch
        rw [hbatch, Client.batch_eq]
    refine ⟨hbe, ?_, ?_⟩
    · rw [hbe, List.pairwise_map]
      have hp : (NewClient.ExecuteAll J calls).executeArray.Pairwise
          (fun u v => u.index ≠ v.index) := by
        have := hnodup
        rw [List.Nodup, List.pairwise_map] at this
        exact this
      refine List.Pairwise.imp ?_ hp
      intro u v huv
      unfold requestUnitOf
      by_cases h1 : u.index ≥ 0 <;> by_cases h2 : v.index ≥ 0 <;> simp [h1, h2, huv]
    · intro r hr
      rw [hbe] at hr
      obtain ⟨u, hu, hur⟩ := List.mem_map.1 hr
      rw [← hur]
      unfold requestUnitOf
      by_cases h1 : u.index ≥ 0
      · right
        have := hnonzero u hu
        exact ⟨u.index, by omega, by simp [h1]⟩
      · left
        simp [h1]

theorem Client_indices_and_ids_witness :
    (requestAndNotification.length < 2 ^ 63) ∧
    ((NewClient.ExecuteAll demoJson requestAndNotification).executeArray.map
      (fun u => u.index)).Nodup ∧
    (∀ u ∈ (NewClient.ExecuteAll demoJson requestAndNotification).executeArray, u.index ≠ 0) ∧
    List.Forall₂
      (fun u call =>
        (call.withIndex = true → 0 < u.index ∧ (requestUnitOf u).ID = ID.int64 u.index) ∧
        (call.withIndex = false → u.index < 0 ∧ (requestUnitOf u).ID = ID.null))
      (NewClient.ExecuteAll demoJson requestAndNotification).executeArray
      (requestAndNotification.filter (Call.encodable demoJson)) ∧
    (∀ batch ∈ ((NewClient.ExecuteAll demoJson requestAndNotification).execute oorAmd64
        demoJson silentTransport).sent,
      batch = (NewClient.ExecuteAll demoJson requestAndNotification).executeArray.map
        requestUnitOf ∧
      batch.Pairwise (fun r s => r.ID = ID.null ∨ s.ID = ID.null ∨ r.ID ≠ s.ID) ∧
      ∀ r ∈ batch, r.ID = ID.null ∨ ∃ n : Int, 0 < n ∧ r.ID = ID.int64 n) :=
  ⟨by decide,
    Client_indices_and_ids oorAmd64 demoJson requestAndNotification silentTransport
      (by decide)⟩

/-! ## The error taxonomy: claims -/

/-- C13, as stated, fails: with a payload that cannot be encoded,
`NewErrorServerError` returns the internal error -32603. -/
theorem NewErrorServerError_unencodable_data :
    jsonMarshal demoJson (.other 0) = .error "json: unsupported value" ∧
    NewErrorServerError demoJson 5 (some (.other 0)) =
      { Code := -32603, Message := "Internal error", Data := none } := by
  decide

/-- C13, amended: for every offset (an `int32`, here any integer) and every
data payload that is nil or can be encoded, `NewErrorServerError` returns an
`Error` whose code is -32000 minus the offset clamped to 0..99, so the code
lies between -32099 and -32000. -/
theorem NewErrorServerError_code (J : JsonLib) (errorCodePart : Int)
    (errorData : Option GoValue)
    (henc : ∀ v, errorData = some v → ∃ raw, jsonMarshal J v = .ok raw) :
    (NewErrorServerError J errorCodePart errorData).Code =
      -32000 - (if errorCodePart < 0 then 0 else if 99 < errorCodePart then 99
        else errorCodePart) ∧
    -32099 ≤ (NewErrorServerError J errorCodePart errorData).Code ∧
    (NewErrorServerError J errorCodePart errorData).Code ≤ -32000 := by
  have hcode : ∀ code : Int, (NewError J code "Server error" errorData).Code = code := by
    intro code
    cases errorData with
    | none => simp [NewError]
    | some v =>
      obtain ⟨raw, hraw⟩ := henc v rfl
      simp [NewError, hraw]
  unfold NewErrorServerError
  simp only [hcode]
  by_cases h1 : errorCodePart < 0
  · simp [h1]
  · by_cases h2 : 99 < errorCodePart
    · simp [h1, h2]
    · simp only [h1, h2, if_false]
      exact ⟨trivial, by omega, by omega⟩

theorem NewErrorServerError_code_witness :
    (∀ v, (some (GoValue.string "busy")) = some v → ∃ raw, jsonMarshal demoJson v = .ok raw) ∧
    (NewErrorServerError demoJson 250 (some (.string "busy"))).Code = -32000 - 99 := by
  have henc : ∀ v, (some (GoValue.string "busy")) = some v →
      ∃ raw, jsonMarshal demoJson v = .ok raw := by
    intro v hv
    cases hv
    exact ⟨_, rfl⟩
  exact ⟨henc,
    (NewErrorServerError_code demoJson 250 (some (.string "busy")) henc).1.trans (by decide)⟩

/-! ## Id-keyed maps: claims -/

theorem RequestMap_values_eq (requestMap : RequestMap) (acc : RequestSlice) :
    requestMap.foldl (fun requestSlice e => requestSlice ++ [e.2]) acc =
      acc ++ requestMap.map (fun e => e.2) := by
  induction requestMap generalizing acc with
  | nil => simp
  | cons e m ih => simp [ih]

theorem ResponseMap_values_eq (responseMap : ResponseMap) (acc : ResponseSlice) :
    responseMap.foldl (fun responseSlice e => responseSlice ++ [e.2]) acc =
      acc ++ responseMap.map (fun e => e.2) := by
  induction responseMap generalizing acc with
  | nil => simp
  | cons e m ih => simp [ih]

theorem find?_goEq_none {α : Type} (entries : List (ID × α)) (id : ID) :
    ((entries.find? (fun e => e.1.goEq id)).map (fun e => e.2) = none) ↔
      entries.all (fun e => !(e.1.goEq id)) = true := by
  simp [List.find?_eq_none]

theorem RequestMap_appendExt_eq (canHash : Nat → Bool) (requestMap : RequestMap)
    (ext acc : RequestSlice) (h : ∀ u ∈ ext, u.ID.hashable canHash = true) :
    RequestMap.appendExt canHash requestMap ext acc =
      some (acc ++ ext.filter (fun u => keepsExt requestMap u.ID)) := by
  induction ext generalizing acc with
  | nil => simp [RequestMap.appendExt]
  | cons u rest ih =>
    have hrest : ∀ v ∈ rest, v.ID.hashable canHash = true :=
      fun v hv => h v (List.mem_cons_of_mem _ hv)
    have hu := h u (List.mem_cons_self _ _)
    unfold RequestMap.appendExt
    by_cases hnull : u.ID = ID.null
    · simp [hnull, ih _ hrest, keepsExt, List.filter_cons]
    · simp only [hnull, if_false, RequestMap.lookup, hu, if_true]
      cases hfind : (requestMap.find? (fun e => e.1.goEq u.ID)).map (fun e => e.2) with
      | none =>
        have hall := (find?_goEq_none requestMap u.ID).1 hfind
        simp [ih _ hrest, keepsExt, List.filter_cons, hall]
      | some v =>
        have hall : requestMap.all (fun e => !(e.1.goEq u.ID)) = false := by
          cases hb : requestMap.all (fun e => !(e.1.goEq u.ID)) with
          | false => rfl
          | true => rw [(find?_goEq_none requestMap u.ID).2 hb] at hfind; cases hfind
        have hne : (u.ID == ID.null) = false := by simpa using hnull
        simp [ih _ hrest, keepsExt, List.filter_cons, hall, hne]

theorem ResponseMap_appendExt_eq (canHash : Nat → Bool) (responseMap : ResponseMap)
    (ext acc : ResponseSlice) (h : ∀ u ∈ ext, u.ID.hashable canHash = true) :
    ResponseMap.appendExt canHash responseMap ext acc =
      some (acc ++ ext.filter (fun u => keepsExt responseMap u.ID)) := by
  induction ext generalizing acc with
  | nil => simp [ResponseMap.appendExt]
  | cons u rest ih =>
    have hrest : ∀ v ∈ rest, v.ID.hashable canHash = true :=
      fun v hv => h v (List.mem_cons_of_mem _ hv)
    have hu := h u (List.mem_cons_self _ _)
    unfold ResponseMap.appendExt
    by_cases hnull : u.ID = ID.null
    · simp [hnull, ih _ hrest, keepsExt, List.filter_cons]
    · simp only [hnull, if_false, ResponseMap.lookup, hu, if_true]
      cases hfind : (responseMap.find? (fun e => e.1.goEq u.ID)).map (fun e => e.2) with
      | none =>
        have hall := (find?_goEq_none responseMap u.ID).1 hfind
        simp [ih _ hrest, keepsExt, List.filter_cons, hall]
      | some v =>
        have hall : responseMap.all (fun e => !(e.1.goEq u.ID)) = false := by
          cases hb : responseMap.all (fun e => !(e.1.goEq u.ID)) with
          | false => rfl
          | true => rw [(find?_goEq_none responseMap u.ID).2 hb] at hfind; cases hfind
        have hne : (u.ID == ID.null) = false := by simpa using hnull
        simp [ih _ hrest, keepsExt, List.filter_cons, hall, hne]

/-- C12, as stated, fails: for a supplementary batch with a unit whose id
cannot be hashed (a JSON array or object), the lookup in `GetSlice` panics and
no batch is returned. -/
theorem GetSlice_unhashable_id_panics :
    RequestMap.GetSlice (fun _ => false) echoMap (some [arrayIdRequest]) = none := by
  decide

/-- C12, amended: for every id-keyed map (`RequestMap` or `ResponseMap`) and
every supplementary batch whose ids can be hashed, `GetSlice` returns the
units of the entries of the map, each once, in the order of the range,
followed by exactly those units of the supplementary batch whose id is nil or
equal to no key of the map, in their order; with a nil supplementary batch it
returns the units of the entries. -/
theorem GetSlice_primary_wins (canHash : Nat → Bool) (requestMap : RequestMap)
    (responseMap : ResponseMap) (extRequestSlice : RequestSlice)
    (extResponseSlice : ResponseSlice)
    (hQ : ∀ u ∈ extRequestSlice, u.ID.hashable canHash = true)
    (hR : ∀ u ∈ extResponseSlice, u.ID.hashable canHash = true) :
    RequestMap.GetSlice canHash requestMap (some extRequestSlice) =
      some (requestMap.map (fun e => e.2) ++
        extRequestSlice.filter (fun u => keepsExt requestMap u.ID)) ∧
    RequestMap.GetSlice canHash requestMap none = some (requestMap.map (fun e => e.2)) ∧
    ResponseMap.GetSlice canHash responseMap (some extResponseSlice) =
      some (responseMap.map (fun e => e.2) ++
        extResponseSlice.filter (fun u => keepsExt responseMap u.ID)) ∧
    ResponseMap.GetSlice canHash responseMap none = some (responseMap.map (fun e => e.2)) := by
  refine ⟨?_, ?_, ?_, ?_⟩
  · simp [RequestMap.GetSlice, RequestMap_values_eq, RequestMap_appendExt_eq _ _ _ _ hQ]
  · simp [RequestMap.GetSlice, RequestMap_values_eq]
  · simp [ResponseMap.GetSlice, ResponseMap_values_eq, ResponseMap_appendExt_eq _ _ _ _ hR]
  · simp [ResponseMap.GetSlice, ResponseMap_values_eq]

theorem GetSlice_primary_wins_witness :
    ((∀ u ∈ [echoNotification, echoRequest, nopeRequest 2],
        u.ID.hashable (fun _ => false) = true) ∧
      (∀ u ∈ [invalidRequestResponse, echoResponse], u.ID.hashable (fun _ => false) = true)) ∧
    RequestMap.GetSlice (fun _ => false) echoMap
        (some [echoNotification, echoRequest, nopeRequest 2]) =
      some ([echoRequest] ++ [echoNotification, nopeRequest 2]) ∧
    ResponseMap.GetSlice (fun _ => false) echoResponseMap
        (some [invalidRequestResponse, echoResponse]) =
      some ([echoResponse] ++ [invalidRequestResponse]) :=
  ⟨⟨by decide, by decide⟩,
    (GetSlice_primary_wins (fun _ => false) echoMap echoResponseMap
      [echoNotification, echoRequest, nopeRequest 2] [invalidRequestResponse, echoResponse]
      (by decide) (by decide)).1.trans (by decide),
    (GetSlice_primary_wins (fun _ => false) echoMap echoResponseMap
      [echoNotification, echoRequest, nopeRequest 2] [invalidRequestResponse, echoResponse]
      (by decide) (by decide)).2.2.1.trans (by decide)⟩

/-! ## The server dispatcher: further claims -/

/-- C15 at a failing input: for a request with id 1 whose handler returns a
result together with a nil `*Error` as its failure, the response returned by
`Server.Execute` has neither result nor error. -/
theorem Server_Execute_nil_error_response :
    Server.Execute demoJson nilErrorServer [echoRequest] =
      [{ JsonRPC := "2.0", ID := .float64 (.finite 1), Result := none, Error := none }] := by
  decide

theorem ServerHandlerUnit.Execute_echo (J : JsonLib) (handler : ServerHandlerUnit)
    (u : RequestUnit) (hid : hasID u.ID = true) :
    ∃ r, (handler.Execute J (some u)).responseUnit = some r ∧ r.ID = u.ID ∧
      r.JsonRPC = u.JsonRPC := by
  unfold ServerHandlerUnit.Execute
  simp only [hid, if_true]
  exact ⟨_, rfl, rfl, rfl⟩

theorem Server.step_current_version (J : JsonLib) (server : Server) (st : ServerLoop)
    (u : RequestUnit) (hv : u.JsonRPC = "2.0") :
    (hasID u.ID = false ∧ (server.step J st u).responseSlice = st.responseSlice) ∨
    (hasID u.ID = true ∧ ∃ r, (server.step J st u).responseSlice = st.responseSlice ++ [r] ∧
      r.ID = u.ID ∧ r.JsonRPC = u.JsonRPC) := by
  cases hid : hasID u.ID with
  | false =>
    left
    refine ⟨rfl, ?_⟩
    simp only [Server.step, hv, hid]
    cases server.handlerMap u.Method <;> simp
  | true =>
    right
    refine ⟨rfl, ?_⟩
    cases hm : server.handlerMap u.Method with
    | none =>
      refine ⟨_, (Server.step_method_not_found J server st u hv hid hm).1, rfl, hv.symm⟩
    | some handler =>
      obtain ⟨r, hr, hrid, hrv⟩ := ServerHandlerUnit.Execute_echo J handler u hid
      refine ⟨r, ?_, hrid, hrv⟩
      simp [Server.step, hv, hid, hm, hr]

theorem Server.loop_current_version (J : JsonLib) (server : Server) (st : ServerLoop)
    (requestSlice : RequestSlice) (hv : ∀ u ∈ requestSlice, u.JsonRPC = "2.0") :
    ∃ added, (server.loop J st requestSlice).responseSlice = st.responseSlice ++ added ∧
      List.Forall₂ (fun r u => r.ID = u.ID ∧ r.JsonRPC = u.JsonRPC) added
        (requestSlice.filter (fun u => hasID u.ID)) := by
  induction requestSlice generalizing st with
  | nil => exact ⟨[], by simp [Server.loop], by simp⟩
  | cons u rest ih =>
    obtain ⟨added, hadded, hrel⟩ := ih (server.step J st u)
      (fun v hv' => hv v (List.mem_cons_of_mem _ hv'))
    have hloop : server.loop J st (u :: rest) = server.loop J (server.step J st u) rest := by
      simp [Server.loop]
    rw [hloop, hadded]
    rcases Server.step_current_version J server st u (hv u (List.mem_cons_self _ _)) with
      ⟨hid, hstep⟩ | ⟨hid, r, hstep, hrid, hrv⟩
    · refine ⟨added, by rw [hstep], ?_⟩
      simpa [List.filter_cons, hid] using hrel
    · refine ⟨r :: added, by rw [hstep]; simp, ?_⟩
      simp only [List.filter_cons, hid, if_true]
      exact List.Forall₂.cons ⟨hrid, hrv⟩ hrel

/-- C16: for every request batch in which every unit has version 2.0, the
response batch returned by `Server.Execute` has exactly one response for each
unit that carries an id (in the sense of `server.go`: not nil and not a
boolean), in the order of those units in the request batch, and each response
has the id and the version of its unit. -/
theorem Server_Execute_one_response_per_id (J : JsonLib) (server : Server)
    (requestSlice : RequestSlice) (hv : ∀ u ∈ requestSlice, u.JsonRPC = "2.0") :
    List.Forall₂ (fun r u => r.ID = u.ID ∧ r.JsonRPC = u.JsonRPC)
      (server.Execute J requestSlice) (requestSlice.filter (fun u => hasID u.ID)) := by
  obtain ⟨added, hadded, hrel⟩ :=
    Server.loop_current_version J server ServerLoop.init requestSlice hv
  have : server.Execute J requestSlice = added := by
    unfold Server.Execute
    rw [hadded]
    simp [ServerLoop.init]
  rw [this]
  exact hrel

theorem Server_Execute_one_response_per_id_witness :
    (∀ u ∈ [echoRequest, echoNotification, nopeRequest 2], u.JsonRPC = "2.0") ∧
    List.Forall₂ (fun r u => r.ID = u.ID ∧ r.JsonRPC = u.JsonRPC)
      (demoServer.Execute demoJson [echoRequest, echoNotification, nopeRequest 2])
      ([echoRequest, echoNotification, nopeRequest 2].filter (fun u => hasID u.ID)) :=
  ⟨by decide,
    Server_Execute_one_response_per_id demoJson demoServer
      [echoRequest, echoNotification, nopeRequest 2] (by decide)⟩

/-! ## The server dispatcher: responses with exactly one of result and error -/

theorem hasID_ne_null (id : ID) (h : hasID id = true) : id ≠ ID.null := by
  intro hn
  rw [hn] at h
  simp [hasID] at h

theorem ServerHandlerUnit.invoke_xor (J : JsonLib) (handler : ServerHandlerUnit)
    (u : RequestUnit)
    (hnil : ∀ function arg, handler.Function = some function →
      (function arg).2 ≠ some (.protocol none)) :
    ((handler.invoke J u).1 = none ↔ (handler.invoke J u).2.1 ≠ none) := by
  unfold ServerHandlerUnit.invoke
  cases hf : handler.Function with
  | none => simp
  | some function =>
    have key : ∀ arg : Option GoValue,
        ((if (function arg).1 ≠ none ∧
              (if (function arg).1 = none ∧ (function arg).2 = none then
                some (GoError.other "handler function return nothing")
              else (function arg).2) ≠ none then none else (function arg).1) = none ↔
          (match (if (function arg).1 = none ∧ (function arg).2 = none then
                some (GoError.other "handler function return nothing")
              else (function arg).2) with
            | none => none
            | some (.protocol e) => e
            | some (.other text) => some (NewErrorInternalError J (some (.string text)))) ≠
            none) := by
      intro arg
      have h := hnil function arg hf
      rcases h1 : (function arg).1 with _ | v <;> rcases h2 : (function arg).2 with _ | e
      · simp
      · cases e with
        | protocol p =>
          cases p with
          | none => rw [h2] at h; exact absurd rfl h
          | some p => simp
        | other t => simp
      · simp
      · cases e with
        | protocol p =>
          cases p with
          | none => rw [h2] at h; exact absurd rfl h
          | some p => simp
        | other t => simp
    rcases hp : u.Params with _ | params <;> rcases hr : handler.Request with _ | ty <;>
      dsimp only
    · exact key none
    · exact key none
    · exact key none
    · rcases hd : ty.decode params with e | v <;> dsimp only
      · simp
      · exact key (some v)

theorem ServerHandlerUnit.Execute_response_wellFormed (J : JsonLib) (handler : ServerHandlerUnit)
    (u : RequestUnit)
    (hnil : ∀ function arg, handler.Function = some function →
      (function arg).2 ≠ some (.protocol none))
    (r : ResponseUnit) (hr : (handler.Execute J (some u)).responseUnit = some r) :
    r.WellFormed J := by
  have hx := ServerHandlerUnit.invoke_xor J handler u hnil
  unfold ServerHandlerUnit.Execute at hr
  cases hid : hasID u.ID with
  | false => simp [hid] at hr
  | true =>
    simp only [hid, if_true, Option.some.injEq] at hr
    subst hr
    refine ⟨?_, fun h => absurd h (hasID_ne_null _ hid)⟩
    dsimp only
    cases h1 : (handler.invoke J u).1 with
    | none =>
      have := hx.1 h1
      simpa using this
    | some v =>
      have hnone : (handler.invoke J u).2.1 = none := by
        by_contra hne
        have := hx.2 hne
        rw [h1] at this
        cases this
      cases hm : jsonMarshal J v <;> simp [hm, hnone]

theorem Server.step_wellFormed (J : JsonLib) (server : Server) (hnil : server.NoNilError)
    (st : ServerLoop) (u : RequestUnit)
    (hslice : ∀ r ∈ st.responseSlice, r.WellFormed J)
    (hunit : ∀ r, st.responseUnit = some r → r.WellFormed J) :
    (∀ r ∈ (server.step J st u).responseSlice, r.WellFormed J) ∧
    (∀ r, (server.step J st u).responseUnit = some r → r.WellFormed J) := by
  have hinvalid : ResponseUnit.WellFormed J
      { JsonRPC := "2.0", ID := ID.null, Result := none,
        Error := some (NewErrorInvalidRequest J none) } := ⟨by simp, fun _ => rfl⟩
  have herr : ∀ e : Error, hasID u.ID = true → ResponseUnit.WellFormed J
      { JsonRPC := "2.0", ID := u.ID, Result := none, Error := some e } :=
    fun e hid => ⟨by simp, fun h => absurd h (hasID_ne_null _ hid)⟩
  have happ : ∀ (l : ResponseSlice) (x : ResponseUnit), (∀ r ∈ l, r.WellFormed J) →
      x.WellFormed J → ∀ r ∈ l ++ [x], r.WellFormed J := by
    intro l x hl hx r hr
    rcases List.mem_append.1 hr with h | h
    · exact hl r h
    · simp only [List.mem_singleton] at h
      rw [h]; exact hx
  unfold Server.step
  by_cases hv : u.JsonRPC = "2.0"
  · simp only [hv, if_true]
    cases hm : server.handlerMap u.Method with
    | none =>
      dsimp only
      cases hid : hasID u.ID with
      | false => exact ⟨hslice, hunit⟩
      | true =>
        simp only [if_true, Bool.false_eq_true, if_false]
        exact ⟨happ _ _ hslice (herr _ hid), hunit⟩
    | some handler =>
      dsimp only
      have hh := ServerHandlerUnit.Execute_response_wellFormed J handler u
        (fun function arg hf => hnil u.Method handler function arg hm hf)
      cases hid : hasID u.ID with
      | false => exact ⟨hslice, hh⟩
      | true =>
        simp only [if_true]
        cases hr : (handler.Execute J (some u)).responseUnit with
        | none => exact ⟨happ _ _ hslice (herr _ hid), by simp⟩
        | some r =>
          refine ⟨happ _ _ hslice (hh r hr), ?_⟩
          intro r' hr'
          simp only [Option.some.injEq] at hr'
          rw [← hr']; exact hh r hr
  · simp only [hv, if_false]
    have hslice' := happ _ _ hslice hinvalid
    cases hid : hasID u.ID with
    | false => exact ⟨hslice', hunit⟩
    | true =>
      simp only [if_true]
      cases hok : st.ok with
      | false =>
        simp only [Bool.false_eq_true, if_false]
        exact ⟨happ _ _ hslice' (herr _ hid), hunit⟩
      | true =>
        simp only [if_true]
        cases hr : st.responseUnit with
        | none => exact ⟨happ _ _ hslice' (herr _ hid), by simp⟩
        | some r =>
          refine ⟨happ _ _ hslice' (hunit r hr), ?_⟩
          intro r' hr'
          simp only [Option.some.injEq] at hr'
          rw [← hr']; exact hunit r hr

theorem Server.Execute_wellFormed (J : JsonLib) (server : Server) (hnil : server.NoNilError)
    (requestSlice : RequestSlice) :
    ∀ r ∈ server.Execute J requestSlice, r.WellFormed J := by
  have h : ∀ (us : RequestSlice) (st : ServerLoop),
      (∀ r ∈ st.responseSlice, r.WellFormed J) →
      (∀ r, st.responseUnit = some r → r.WellFormed J) →
      ∀ r ∈ (server.loop J st us).responseSlice, r.WellFormed J := by
    intro us
    induction us with
    | nil => intro st h1 _; simpa [Server.loop] using h1
    | cons u rest ih =>
      intro st h1 h2
      obtain ⟨h3, h4⟩ := Server.step_wellFormed J server hnil st u h1 h2
      have := ih (server.step J st u) h3 h4
      simpa [Server.loop] using this
  exact h requestSlice ServerLoop.init (by simp [ServerLoop.init]) (by simp [ServerLoop.init])

/-! ## The client engine: completion signals and encoding failures -/

theorem Client.execute_units_length (oor : Float64 → Int) (J : JsonLib) (client : Client)
    (transport : ClientTransport) :
    (client.execute oor J transport).units.length = client.executeArray.length := by
  unfold Client.execute
  by_cases hlen : client.executeArray.length = 0
  · simp [hlen]
  · simp only [hlen, if_false]
    cases transport (snapshot client.executeArray 0 [] []).2 with
    | error e =>
      dsimp only
      unfold failAll
      rw [foldl_modifyAt_length]
    | ok rs =>
      dsimp only
      unfold completeRest
      rw [foldl_modifyAt_length, demux_length]

theorem completedUnit_mutex (oor : Float64 → Int) (J : JsonLib) (responseSlice : ResponseSlice)
    (u : clientExecuteUnit) :
    (completedUnit oor J responseSlice u).executeMutex = u.executeMutex.map (· + 1) ∧
    (completedUnit oor J responseSlice u).index = u.index := by
  unfold completedUnit
  split
  · exact ⟨rfl, rfl⟩
  · split <;> exact ⟨rfl, rfl⟩

/-- C21: in every dispatch cycle that sends a batch (of a client in a state
satisfying `Client.WF`), whatever the transport returns, a failure or any
batch of response units (also one in which several units carry the same id),
each execution unit of the snapshot, which had no signal on its channel and
on which `Wait` blocked, ends with exactly one signal sent on its channel, so
that `Wait` returns; the units after the cycle are those of the snapshot, one
for one. -/
theorem Client_execute_signals_once (oor : Float64 → Int) (J : JsonLib) (client : Client)
    (transport : ClientTransport) (hwf : client.WF)
    (p : Nat) (u : clientExecuteUnit) (hu : client.executeArray[p]? = some u) :
    (client.execute oor J transport).sent = [client.batch] ∧
    (client.execute oor J transport).units.length = client.executeArray.length ∧
    u.executeMutex = some 0 ∧ u.Wait = none ∧
    ∃ u', (client.execute oor J transport).units[p]? = some u' ∧
      u'.index = u.index ∧ u'.executeMutex = some 1 ∧
      u'.Wait = some { u' with executeMutex := none } := by
  have hne : client.executeArray ≠ [] := by
    intro h
    simp [h] at hu
  have hmem : u ∈ client.executeArray := List.getElem?_mem hu
  obtain ⟨hmutex, -, -, -, -⟩ := hwf.2.2.1 u hmem
  refine ⟨?_, Client.execute_units_length oor J client transport, hmutex, ?_, ?_⟩
  · rw [(Client.execute_sent oor J client transport).1, if_neg hne]
  · simp [clientExecuteUnit.Wait, hmutex]
  · cases ht : transport client.batch with
    | error e =>
      refine ⟨_, Client.execute_failure_spec oor J client transport e hwf ht p u hu, rfl, ?_, ?_⟩
      · simp [signal, hmutex]
      · simp [clientExecuteUnit.Wait, signal, hmutex]
    | ok rs =>
      obtain ⟨h1, h2⟩ := completedUnit_mutex oor J rs u
      rw [hmutex] at h1
      refine ⟨_, Client.execute_units_spec oor J client transport rs hwf ht p u hu, h2, ?_, ?_⟩
      · simpa using h1
      · have h3 : (completedUnit oor J rs u).executeMutex = some (0 + 1) := by simpa using h1
        simp only [clientExecuteUnit.Wait, h3]

theorem Client_execute_signals_once_witness :
    ((NewClient.ExecuteAll demoJson twoCalls).WF ∧
      (NewClient.ExecuteAll demoJson twoCalls).executeArray[0]? = some firstQueued) ∧
    ((NewClient.ExecuteAll demoJson twoCalls).execute oorAmd64 demoJson
        sameIdTwiceTransport).units.length =
      (NewClient.ExecuteAll demoJson twoCalls).executeArray.length ∧
    ∃ u', ((NewClient.ExecuteAll demoJson twoCalls).execute oorAmd64 demoJson
        sameIdTwiceTransport).units[0]? = some u' ∧
      u'.index = firstQueued.index ∧ u'.executeMutex = some 1 ∧
      u'.Wait = some { u' with executeMutex := none } :=
  ⟨⟨by decide, by decide⟩,
    (Client_execute_signals_once oorAmd64 demoJson (NewClient.ExecuteAll demoJson twoCalls)
      sameIdTwiceTransport (by decide) 0 firstQueued (by decide)).2.1,
    (Client_execute_signals_once oorAmd64 demoJson (NewClient.ExecuteAll demoJson twoCalls)
      sameIdTwiceTransport (by decide) 0 firstQueued (by decide)).2.2.2.2⟩

/-- C22: when the params of a call cannot be encoded, `Client.Execute` advances
the counter by one (in `int64` arithmetic) and leaves the pending queue as it
was, so that a dispatch cycle sends what it would have sent without the call;
the returned unit has no channel, `Wait` on it returns at once, and `Response`
returns, for every target, the invalid-params error -32602 whose data is the
encoded text of the encoding failure, and decodes nothing. -/
theorem Client_Execute_unencodable_params (oor : Float64 → Int) (J : JsonLib)
    (client : Client) (withIndex : Bool) (method : String) (v : GoValue) (e : String)
    (transport : ClientTransport) (target : Option ReflectType)
    (henc : jsonMarshal J v = .error e) :
    (client.Execute J withIndex method (some v)).1.executeIndex =
      wrapInt64 (client.executeIndex + 1) ∧
    (-(2 ^ 63) ≤ client.executeIndex → client.executeIndex < 2 ^ 63 - 1 →
      (client.Execute J withIndex method (some v)).1.executeIndex = client.executeIndex + 1) ∧
    (client.Execute J withIndex method (some v)).1.executeArray = client.executeArray ∧
    ((client.Execute J withIndex method (some v)).1.execute oor J transport).sent =
      (client.execute oor J transport).sent ∧
    (client.Execute J withIndex method (some v)).2.executeMutex = none ∧
    (client.Execute J withIndex method (some v)).2.Wait =
      some (client.Execute J withIndex method (some v)).2 ∧
    (client.Execute J withIndex method (some v)).2.Response J target =
      some (none, some { Code := -32602, Message := "Invalid params",
                         Data := some (J.quote e) }) := by
  have hq : (client.Execute J withIndex method (some v)).1.executeArray =
      client.executeArray := by
    simp [Client.Execute, henc]
  have hm : (client.Execute J withIndex method (some v)).2.executeMutex = none := by
    simp [Client.Execute, henc]
  have hidx := Client.Execute_index J client withIndex method (some v)
  refine ⟨hidx, ?_, hq, ?_, hm, ?_, ?_⟩
  · intro h1 h2
    rw [hidx]
    exact wrapInt64_of_range _ (by omega) (by omega)
  · rw [(Client.execute_sent oor J _ transport).1, (Client.execute_sent oor J client transport).1,
      hq, Client.batch_eq, Client.batch_eq, hq]
  · simp [clientExecuteUnit.Wait, hm]
  · simp [clientExecuteUnit.Response, clientExecuteUnit.Wait, Client.Execute, henc,
      NewErrorInvalidParams, NewError_string]

theorem Client_Execute_unencodable_params_witness :
    (jsonMarshal demoJson (.other 0) = .error "json: unsupported value") ∧
    (NewClient.Execute demoJson true "m" (some (.other 0))).1 =
      { executeIndex := 1, executeArray := [] } ∧
    (NewClient.Execute demoJson true "m" (some (.other 0))).2.Response demoJson
        (some stringTarget) =
      some (none, some { Code := -32602, Message := "Invalid params",
                         Data := some (demoJson.quote "json: unsupported value") }) :=
  ⟨rfl, by decide,
    (Client_Execute_unencodable_params oorAmd64 demoJson NewClient true "m" (.other 0)
      "json: unsupported value" silentTransport (some stringTarget) rfl).2.2.2.2.2.2⟩

end jsonrpc2
